import Mathlib

/-!
# A banking ledger: `bank2.cpp`

A shallow embedding of the classes `Transaction`, `Account`, `Customer` and
`BankingService` of `src/bank2.cpp`, followed by theorems about them.

Conventions of the embedding.

* Amounts and balances (`double` in the source) are exact rationals.
* `int` identifiers are unbounded integers; no arithmetic is done on them.
* A `vector` is a `List`; `push_back` appends at the end.
* A pointer or reference into a vector (`Customer*`, `Account*`, `Account&`)
  is the position of the element; writing through it is `modifyAt`.  Two
  pointers to the same element are the same position, so aliasing is kept.
* `time(0)` is an argument of the operation that reads the clock.
* Console output (`cout`) is not part of the state and is left out.
-/

namespace Bank

/-! ## Data model -/

/-- The class `Transaction` (lines 9-31): identifier, kind, amount and the
time stamp taken by the constructor. -/
structure Transaction where
  transactionID : Int
  transactionType : String
  amount : ℚ
  date : Int
deriving DecidableEq

/-- The class `Account` (lines 34-89). -/
structure Account where
  accountNumber : Int
  balance : ℚ
  transactions : List Transaction
deriving DecidableEq

/-- The class `Customer` (lines 92-133). -/
structure Customer where
  name : String
  customerID : Int
  accounts : List Account
deriving DecidableEq

/-- The class `BankingService` (lines 136-242): its only field. -/
structure BankingService where
  customers : List Customer
deriving DecidableEq

/-! ## Pointers into vectors -/

/-- Write through a pointer: the element at position `i` becomes `f` of
itself; a position past the end writes nothing. -/
def modifyAt {α : Type} (f : α → α) : Nat → List α → List α
  | _, [] => []
  | 0, x :: rest => f x :: rest
  | i + 1, x :: rest => x :: modifyAt f i rest

/-- The loop `for (auto &x : xs) if (p x) return &x; return nullptr;`:
the position of the first element satisfying `p`, or `none` for `nullptr`. -/
def firstIndex {α : Type} (p : α → Bool) : List α → Option Nat
  | [] => none
  | x :: rest => if p x then some 0 else (firstIndex p rest).map (· + 1)

/-! ## Account -/

/-- The statement
`transactions.push_back(Transaction(transactions.size() + 1, type, amount))`
executed at time `now`. -/
def Account.record (self : Account) (transactionType : String) (amount : ℚ)
    (now : Int) : Account :=
  { self with
    transactions := self.transactions ++
      [⟨(self.transactions.length : Int) + 1, transactionType, amount, now⟩] }

/-- The method `Account::deposit` (lines 43-47). -/
def Account.deposit (self : Account) (amount : ℚ) (now : Int) : Account :=
  ({ self with balance := self.balance + amount }).record "Deposit" amount now

/-- The method `Account::withdraw` (lines 49-57). -/
def Account.withdraw (self : Account) (amount : ℚ) (now : Int) : Account :=
  if amount ≤ self.balance then
    ({ self with balance := self.balance - amount }).record "Withdrawal" amount now
  else
    self

/-- The method `Account::transfer` (lines 59-69), run on the vector that holds
both accounts: `self` is the position of `*this`, `targetAccount` the position
the reference points to (they may be equal).  The four assignments are done in
the order of the source, each reading the vector left by the one before; the
two `Transaction` constructors read the clock at `t1` and `t2`. -/
def Account.transfer (accounts : List Account) (self targetAccount : Nat)
    (amount : ℚ) (t1 t2 : Int) : List Account :=
  match accounts[self]? with
  | none => accounts
  | some source =>
    if amount ≤ source.balance then
      let m1 := modifyAt (fun a => { a with balance := a.balance - amount }) self accounts
      let m2 := modifyAt (fun a => { a with balance := a.balance + amount }) targetAccount m1
      let m3 := modifyAt (fun a => a.record "Transfer" amount t1) self m2
      modifyAt (fun a => a.record "Transfer" amount t2) targetAccount m3
    else
      accounts

/-! ## Customer -/

/-- The method `Customer::addAccount` (lines 101-104); the new account is
`Account(accountNumber)`, whose balance defaults to `0.0`. -/
def Customer.addAccount (self : Customer) (accountNumber : Int) : Customer :=
  { self with accounts := self.accounts ++ [⟨accountNumber, 0, []⟩] }

/-- The method `Customer::getAccount` (lines 113-120). -/
def Customer.getAccount (self : Customer) (accountNumber : Int) : Option Nat :=
  firstIndex (fun acc => decide (acc.accountNumber = accountNumber)) self.accounts

/-! ## BankingService -/

/-- The method `BankingService::addCustomer` (lines 186-189). -/
def BankingService.addCustomer (self : BankingService) (name : String)
    (customerID : Int) : BankingService :=
  { customers := self.customers ++ [⟨name, customerID, []⟩] }

/-- The method `BankingService::getCustomer` (lines 191-198). -/
def BankingService.getCustomer (self : BankingService) (customerID : Int) :
    Option Nat :=
  firstIndex (fun cust => decide (cust.customerID = customerID)) self.customers

/-- The idiom of `main` (lines 253-257):
`Customer* c = bank.getCustomer(id); if (c) c->addAccount(accountNumber);`. -/
def BankingService.addAccount (self : BankingService)
    (customerID accountNumber : Int) : BankingService :=
  match self.getCustomer customerID with
  | some customer =>
    { customers := modifyAt (fun c => c.addAccount accountNumber) customer self.customers }
  | none => self

/-- The block of `performDeposit` run through the pointer `customer`
(lines 203-208): look the account up, deposit into it if it is found. -/
def Customer.performDeposit (self : Customer) (accountNumber : Int) (amount : ℚ)
    (now : Int) : Customer :=
  match self.getAccount accountNumber with
  | some account =>
    { self with accounts := modifyAt (fun a => a.deposit amount now) account self.accounts }
  | none => self

/-- The method `BankingService::performDeposit` (lines 200-212). -/
def BankingService.performDeposit (self : BankingService)
    (customerID accountNumber : Int) (amount : ℚ) (now : Int) : BankingService :=
  match self.getCustomer customerID with
  | some customer =>
    { customers :=
        modifyAt (fun c => c.performDeposit accountNumber amount now) customer self.customers }
  | none => self

/-- The block of `performWithdrawal` run through the pointer `customer`
(lines 217-222). -/
def Customer.performWithdrawal (self : Customer) (accountNumber : Int) (amount : ℚ)
    (now : Int) : Customer :=
  match self.getAccount accountNumber with
  | some account =>
    { self with accounts := modifyAt (fun a => a.withdraw amount now) account self.accounts }
  | none => self

/-- The method `BankingService::performWithdrawal` (lines 214-226). -/
def BankingService.performWithdrawal (self : BankingService)
    (customerID accountNumber : Int) (amount : ℚ) (now : Int) : BankingService :=
  match self.getCustomer customerID with
  | some customer =>
    { customers :=
        modifyAt (fun c => c.performWithdrawal accountNumber amount now) customer self.customers }
  | none => self

/-- The block of `performTransfer` run through the pointer `customer`
(lines 231-237): both account numbers are looked up in this one customer, and
the transfer is made only when both are found. -/
def Customer.performTransfer (self : Customer)
    (fromAccountNumber toAccountNumber : Int) (amount : ℚ) (t1 t2 : Int) : Customer :=
  match self.getAccount fromAccountNumber, self.getAccount toAccountNumber with
  | some fromAccount, some toAccount =>
    { self with
      accounts := Account.transfer self.accounts fromAccount toAccount amount t1 t2 }
  | _, _ => self

/-- The method `BankingService::performTransfer` (lines 228-241). -/
def BankingService.performTransfer (self : BankingService)
    (customerID fromAccountNumber toAccountNumber : Int) (amount : ℚ)
    (t1 t2 : Int) : BankingService :=
  match self.getCustomer customerID with
  | some customer =>
    { customers :=
        modifyAt (fun c => c.performTransfer fromAccountNumber toAccountNumber amount t1 t2)
          customer self.customers }
  | none => self

/-! ## Observations used by the statements -/

/-- The sum of the balances of a customer's accounts. -/
def Customer.total (self : Customer) : ℚ :=
  (self.accounts.map (fun a => a.balance)).sum

/-- The sum of all balances held in the store. -/
def BankingService.total (self : BankingService) : ℚ :=
  (self.customers.map Customer.total).sum

/-- The account the `perform` methods resolve for a customer ID and an account
number: `getCustomer`, then `getAccount` on the customer found. -/
def BankingService.findAccount (self : BankingService)
    (customerID accountNumber : Int) : Option Account :=
  (self.getCustomer customerID).bind fun customer =>
    (self.customers[customer]?).bind fun c =>
      (c.getAccount accountNumber).bind fun account => c.accounts[account]?

/-! ## Sequences of calls -/

/-- One call made on the store by a caller such as `main`. -/
inductive Op where
  | addCustomer (name : String) (customerID : Int)
  | addAccount (customerID accountNumber : Int)
  | performDeposit (customerID accountNumber : Int) (amount : ℚ) (now : Int)
  | performWithdrawal (customerID accountNumber : Int) (amount : ℚ) (now : Int)
  | performTransfer (customerID fromAccountNumber toAccountNumber : Int) (amount : ℚ)
      (t1 t2 : Int)

/-- The amount a call carries (none for the two calls that add an entity). -/
def Op.amount? : Op → Option ℚ
  | .addCustomer _ _ => none
  | .addAccount _ _ => none
  | .performDeposit _ _ amount _ => some amount
  | .performWithdrawal _ _ amount _ => some amount
  | .performTransfer _ _ _ amount _ _ => some amount

/-- The store after one call. -/
def BankingService.step (self : BankingService) : Op → BankingService
  | .addCustomer name customerID => self.addCustomer name customerID
  | .addAccount customerID accountNumber => self.addAccount customerID accountNumber
  | .performDeposit customerID accountNumber amount now =>
    self.performDeposit customerID accountNumber amount now
  | .performWithdrawal customerID accountNumber amount now =>
    self.performWithdrawal customerID accountNumber amount now
  | .performTransfer customerID fromAccountNumber toAccountNumber amount t1 t2 =>
    self.performTransfer customerID fromAccountNumber toAccountNumber amount t1 t2

/-- The store after a sequence of calls, made from left to right. -/
def BankingService.run (self : BankingService) : List Op → BankingService
  | [] => self
  | op :: ops => (self.step op).run ops

/-- The store of a `BankingService` with no customers. -/
def BankingService.empty : BankingService := ⟨[]⟩

/-! ## Persistence -/

/-- The function `std::to_string(int)`: the decimal digits, with a leading
minus sign for a negative number. -/
def to_string_int (n : Int) : String :=
  if n < 0 then "-" ++ Nat.repr n.natAbs else Nat.repr n.natAbs

/-- The function `std::to_string(double)`, which prints like `%f`: the value
rounded to six decimals (ties to even), written as integer part, a point and
six digits. -/
def to_string_double (x : ℚ) : String :=
  let n := x.num.natAbs * 1000000
  let q := n / x.den
  let r := n % x.den
  let rounded :=
    if 2 * r < x.den then q else if x.den < 2 * r then q + 1
    else if q % 2 = 0 then q else q + 1
  let frac := Nat.repr (rounded % 1000000)
  (if x < 0 then "-" else "") ++ Nat.repr (rounded / 1000000) ++ "." ++
    String.mk (List.replicate (6 - frac.length) (Char.ofNat 48)) ++ frac

/-- The method `Account::getAccountDetails` (lines 82-84). -/
def Account.getAccountDetails (self : Account) : String :=
  to_string_int self.accountNumber ++ "," ++ to_string_double self.balance ++ "\n"

/-- The method `Customer::getCustomerDetails` (lines 122-128). -/
def Customer.getCustomerDetails (self : Customer) : String :=
  self.accounts.foldl (fun details acc => details ++ acc.getAccountDetails)
    (to_string_int self.customerID ++ "," ++ self.name ++ "\n")

/-- The method `BankingService::saveCustomersToFile` (lines 169-175): the text
written to `customers.txt`. -/
def BankingService.saveCustomersToFile (self : BankingService) : String :=
  self.customers.foldl (fun outFile customer => outFile ++ customer.getCustomerDetails) ""

/-- The results of the successive calls `getline(inFile, line)` on a file
holding `text`, up to the first call that fails: the text is cut at each line
feed, and a last line without line feed is returned when it is not empty.
`line` holds the characters read so far, last one first. -/
def getlines (line : List Char) : List Char → List (List Char)
  | [] => if line.isEmpty then [] else [line.reverse]
  | c :: text =>
    if c = Char.ofNat 10 then line.reverse :: getlines [] text
    else getlines (c :: line) text

/-- The function `isspace` of the C locale. -/
def isspace (c : Char) : Bool :=
  c = Char.ofNat 32 || (9 ≤ c.toNat && c.toNat ≤ 13)

/-- The conversion `%d` at the start of the format of `sscanf`, applied to
`line.c_str()`: the string ends at its first NUL character, leading white space
is skipped, an optional sign and then decimal digits are read.  `none` when no
digit is found: then `sscanf` assigns nothing and the `int` stays
uninitialised. -/
def scanInt (line : List Char) : Option Int :=
  let s := (line.takeWhile (fun c => c ≠ Char.ofNat 0)).dropWhile isspace
  let body := match s with
    | '-' :: r => (true, r)
    | '+' :: r => (false, r)
    | _ => (false, s)
  let digits := body.2.takeWhile Char.isDigit
  let value : Int := digits.foldl (fun n c => 10 * n + ((c.toNat - 48 : Nat) : Int)) 0
  if digits.isEmpty then none else some (if body.1 then -value else value)

/-- The two nested loops of `loadCustomersFromFile` (lines 149-163) over the
lines still to be read.  The first argument is `none` at the head of the outer
loop and `some customer` at the head of the inner loop, `customer` being the
local variable of line 154; `customers` is the vector of the store.

* Outer loop: `sscanf(line, "%d,%s", &customerID, &name[0])` stores the name
  through a pointer into the empty string `name`, which leaves its length 0, so
  the customer is constructed with the empty name; `customers.push_back`
  stores a copy of `customer`.
* Inner loop: `customer.addAccount(accountNumber)` changes the local variable,
  not the copy in `customers`; the scanned `balance` is not used.

The result is `none` when a scan assigns no number, so that an uninitialised
`int` would be read. -/
def loadLoop : Option Customer → List Customer → List (List Char) → Option (List Customer)
  | _, customers, [] => some customers
  | none, customers, line :: rest =>
    match scanInt line with
    | none => none
    | some customerID =>
      loadLoop (some ⟨"", customerID, []⟩) (customers ++ [⟨"", customerID, []⟩]) rest
  | some customer, customers, line :: rest =>
    if line.isEmpty then loadLoop none customers rest
    else
      match scanInt line with
      | none => none
      | some accountNumber => loadLoop (some (customer.addAccount accountNumber)) customers rest

/-- The method `BankingService::loadCustomersFromFile` (lines 141-166), called
by the constructor on an empty store.  `file` is the content of
`customers.txt`, or `none` when the file cannot be opened. -/
def loadCustomersFromFile (file : Option String) : Option BankingService :=
  match file with
  | none => some ⟨[]⟩
  | some text => (loadLoop none [] (getlines [] text.data)).map BankingService.mk

/-! ## The driver -/

/-- The calls of `main` (lines 249-267) on the store `bank` left by the
constructor; `time k` is the clock read by the `k`-th `Transaction`
constructor. -/
def main (bank : BankingService) (time : Nat → Int) : BankingService :=
  let bank := bank.addCustomer "Alice" 1001
  let bank := bank.addCustomer "Bob" 1002
  let bank := bank.addAccount 1001 2001
  let bank := bank.addAccount 1002 2002
  let bank := bank.performDeposit 1001 2001 500 (time 0)
  let bank := bank.performWithdrawal 1001 2001 100 (time 1)
  bank.performTransfer 1001 2001 2002 200 (time 2) (time 3)

/-! ## Predicates and inputs of the statements -/

/-- A store used to instantiate the theorems: customer 1001 owns account 2001,
which holds 400 after a deposit and a withdrawal, and the new account 2003;
customer 1002 owns the new account 2002. -/
def sampleStore : BankingService :=
  ⟨[⟨"Alice", 1001,
      [⟨2001, 400, [⟨1, "Deposit", 500, 10⟩, ⟨2, "Withdrawal", 100, 11⟩]⟩,
       ⟨2003, 0, []⟩]⟩,
    ⟨"Bob", 1002, [⟨2002, 0, []⟩]⟩]⟩

/-- Every account of every customer of the store satisfies `P`. -/
def BankingService.AllAccounts (self : BankingService) (P : Account → Prop) : Prop :=
  ∀ c ∈ self.customers, ∀ a ∈ c.accounts, P a

/-- A run with a transfer between two accounts: two accounts of one customer
receive the same deposit in the same second, then 200 is transferred from the
first to the second. -/
def twinOps : List Op :=
  [.addCustomer "Alice" 1001, .addAccount 1001 2001, .addAccount 1001 2003,
   .performDeposit 1001 2001 500 10, .performDeposit 1001 2003 500 10,
   .performTransfer 1001 2001 2003 200 11 11]

/-- Resolution of a customer ID and an account number fails on the store:
either no stored customer has the ID, or the first customer with the ID owns
no account with the number. -/
def BankingService.Unresolved (self : BankingService) (customerID accountNumber : Int) :
    Prop :=
  (∀ c ∈ self.customers, c.customerID ≠ customerID) ∨
  ∃ before c after, self.customers = before ++ c :: after ∧
    (∀ x ∈ before, x.customerID ≠ customerID) ∧ c.customerID = customerID ∧
    ∀ a ∈ c.accounts, a.accountNumber ≠ accountNumber

/-- The documented backing file of two customer blocks, each an ID line, one
account line and an empty line. -/
def documentedFile : String :=
  "1001,Alice\n2001,400.000000\n\n1002,Bob\n2002,0.000000\n\n"

/-- The store the documented file describes. -/
def documentedStore : BankingService :=
  ⟨[⟨"Alice", 1001, [⟨2001, 400, []⟩]⟩, ⟨"Bob", 1002, [⟨2002, 0, []⟩]⟩]⟩

/-! ## Predicates of the later statements -/

/-- The customer ID a call adds to the store, if it is an `addCustomer`. -/
def Op.newCustomerID? : Op → Option Int
  | .addCustomer _ customerID => some customerID
  | _ => none

/-- The account stored at position `ai` of the customer at position `ci`. -/
def BankingService.accountAt (self : BankingService) (ci ai : Nat) : Option Account :=
  (self.customers[ci]?).bind fun c => c.accounts[ai]?

/-- The name, the ID and the account numbers, in order, of a customer. -/
def Customer.skeleton (self : Customer) : String × Int × List Int :=
  (self.name, self.customerID, self.accounts.map fun a => a.accountNumber)

/-- The part of the store no `perform` method may touch: the skeletons of the
customers, in order. -/
def BankingService.skeleton (self : BankingService) : List (String × Int × List Int) :=
  self.customers.map Customer.skeleton

/-- Position `(ci, ai)` is what the `perform` methods resolve for a customer ID
and an account number: `ci` is the position `getCustomer` returns and `ai` the
position `getAccount` returns on that customer.  By `getCustomer` and
`getAccount` this is the first account with the number of the first customer
with the ID. -/
def BankingService.Resolves (self : BankingService) (customerID accountNumber : Int)
    (ci ai : Nat) : Prop :=
  self.getCustomer customerID = some ci ∧
  ∃ c, self.customers[ci]? = some c ∧ c.getAccount accountNumber = some ai

/-- The records of a history carry the sequence numbers 1, 2, 3, ... in
order: the record at position `k` (from 0) has `transactionID` `k + 1`. -/
def Numbered (transactions : List Transaction) : Prop :=
  ∀ (k : Nat) (t : Transaction), transactions[k]? = some t → t.transactionID = (k : Int) + 1

/-- The calls of a run that ends with a transfer from an account to itself. -/
def selfTransferOps : List Op :=
  [.addCustomer "Alice" 1001, .addAccount 1001 2001, .performDeposit 1001 2001 500 10,
   .performWithdrawal 1001 2001 100 11, .performTransfer 1001 2001 2001 150 12 13]

/-! ## The ledger of a run -/

/-- The role in which a succeeding operation touches an account: a deposit, a
withdrawal, the outgoing leg of a transfer (the account is the source) or the
incoming leg of a transfer (the account is the target). -/
inductive Leg where
  | deposit
  | withdrawal
  | transferOut
  | transferIn
deriving DecidableEq

/-- The kind written in the transaction record of a leg. -/
def Leg.kind : Leg → String
  | .deposit => "Deposit"
  | .withdrawal => "Withdrawal"
  | .transferOut => "Transfer"
  | .transferIn => "Transfer"

/-- The signed amount of a leg: deposits and incoming transfers count
positive, withdrawals and outgoing transfers count negative. -/
def Leg.signed : Leg → ℚ → ℚ
  | .deposit, amount => amount
  | .withdrawal, amount => -amount
  | .transferOut, amount => -amount
  | .transferIn, amount => amount

/-- The legs a call posts on the account at position `ai` of customer `self`,
given that the call's customer ID resolves to `self`: a deposit whose account
number resolves to `ai`; a withdrawal whose account number resolves to `ai`
and whose amount does not exceed the balance; for a transfer whose two
account numbers resolve and whose amount does not exceed the balance of the
source, the outgoing leg when `ai` is the source and the incoming leg when
`ai` is the target (both, in this order, when it is both). -/
def Customer.legsAt (self : Customer) (ai : Nat) : Op → List (Leg × ℚ)
  | .addCustomer _ _ => []
  | .addAccount _ _ => []
  | .performDeposit _ accountNumber amount _ =>
    if self.getAccount accountNumber = some ai then [(Leg.deposit, amount)] else []
  | .performWithdrawal _ accountNumber amount _ =>
    if self.getAccount accountNumber = some ai then
      match self.accounts[ai]? with
      | some a => if amount ≤ a.balance then [(Leg.withdrawal, amount)] else []
      | none => []
    else []
  | .performTransfer _ fromAccountNumber toAccountNumber amount _ _ =>
    match self.getAccount fromAccountNumber, self.getAccount toAccountNumber with
    | some i, some j =>
      match self.accounts[i]? with
      | some source =>
        if amount ≤ source.balance then
          (if i = ai then [(Leg.transferOut, amount)] else []) ++
          (if j = ai then [(Leg.transferIn, amount)] else [])
        else []
      | none => []
    | _, _ => []

/-- The customer ID a call looks up with `getCustomer`, if it looks one up. -/
def Op.customerID? : Op → Option Int
  | .addCustomer _ _ => none
  | .addAccount customerID _ => some customerID
  | .performDeposit customerID _ _ _ => some customerID
  | .performWithdrawal customerID _ _ _ => some customerID
  | .performTransfer customerID _ _ _ _ _ => some customerID

/-- The legs a call made on the store `self` posts on the account at position
`(ci, ai)`: those of `Customer.legsAt` when the call's customer ID resolves to
the customer at `ci`, none otherwise. -/
def BankingService.legsAt (self : BankingService) (ci ai : Nat) (op : Op) : List (Leg × ℚ) :=
  match op.customerID? with
  | none => []
  | some customerID =>
    if self.getCustomer customerID = some ci then
      match self.customers[ci]? with
      | some c => c.legsAt ai op
      | none => []
    else []

/-- The legs posted on the account at position `(ci, ai)` by a sequence of
calls made from the store `self`, in the order of the calls. -/
def BankingService.legs (self : BankingService) (ci ai : Nat) : List Op → List (Leg × ℚ)
  | [] => []
  | op :: ops => self.legsAt ci ai op ++ (self.step op).legs ci ai ops

/-- The history of the account lists the legs `L` in order, one record per
leg with the leg's kind and amount, and the balance is the sum of the signed
amounts of the legs. -/
def Account.Ledger (a : Account) (L : List (Leg × ℚ)) : Prop :=
  a.transactions.map (fun t => (t.transactionType, t.amount))
    = L.map (fun e => (e.1.kind, e.2)) ∧
  a.balance = (L.map fun e => e.1.signed e.2).sum

/-- The account at position `ai` of the customer, if there is one, has the
ledger `L`; if there is none, `L` is empty. -/
def Customer.LedgerAt (c : Customer) (ai : Nat) (L : List (Leg × ℚ)) : Prop :=
  match c.accounts[ai]? with
  | some a => a.Ledger L
  | none => L = []

/-- The account at position `(ci, ai)` of the store, if there is one, has the
ledger `L`; if there is none, `L` is empty. -/
def BankingService.LedgerAt (s : BankingService) (ci ai : Nat) (L : List (Leg × ℚ)) : Prop :=
  match s.customers[ci]? with
  | some c => c.LedgerAt ai L
  | none => L = []

/-! ## Pointers into vectors: lemmas -/

theorem modifyAt_length {α : Type} (f : α → α) (i : Nat) (l : List α) :
    (modifyAt f i l).length = l.length := by
  induction l generalizing i with
  | nil => simp [modifyAt, firstIndex]
  | cons x rest ih => cases i <;> simp [modifyAt, ih]

theorem getElem?_modifyAt {α : Type} (f : α → α) (i k : Nat) (l : List α) :
    (modifyAt f i l)[k]? = if k = i then (l[k]?).map f else l[k]? := by
  induction l generalizing i k with
  | nil => simp [modifyAt]
  | cons x rest ih =>
    cases i with
    | zero => cases k <;> simp [modifyAt]
    | succ i => cases k <;> simp [modifyAt, ih]

theorem modifyAt_eq_self {α : Type} (f : α → α) (i : Nat) (l : List α)
    (h : ∀ x, l[i]? = some x → f x = x) : modifyAt f i l = l := by
  induction l generalizing i with
  | nil => simp [modifyAt, firstIndex]
  | cons x rest ih =>
    cases i with
    | zero => simp [modifyAt, h x]
    | succ i => simp [modifyAt]; exact ih i (fun y hy => h y (by simpa using hy))

theorem mem_modifyAt {α : Type} (f : α → α) (i : Nat) (l : List α) (x : α)
    (h : x ∈ modifyAt f i l) : x ∈ l ∨ ∃ y, l[i]? = some y ∧ x = f y := by
  induction l generalizing i with
  | nil => simp [modifyAt] at h
  | cons z rest ih =>
    cases i with
    | zero =>
      simp only [modifyAt, List.mem_cons] at h
      rcases h with h | h
      · exact Or.inr ⟨z, by simp, h⟩
      · exact Or.inl (List.mem_cons_of_mem _ h)
    | succ i =>
      simp only [modifyAt, List.mem_cons] at h
      rcases h with h | h
      · exact Or.inl (by simp [h])
      · rcases ih i h with h | ⟨y, hy, hxy⟩
        · exact Or.inl (List.mem_cons_of_mem _ h)
        · exact Or.inr ⟨y, by simpa using hy, hxy⟩

theorem firstIndex_eq_none {α : Type} (p : α → Bool) (l : List α) :
    firstIndex p l = none ↔ ∀ x ∈ l, p x = false := by
  induction l with
  | nil => simp [firstIndex]
  | cons x rest ih =>
    by_cases hx : p x <;> simp [firstIndex, hx, ih]

theorem firstIndex_eq_some {α : Type} (p : α → Bool) (l : List α) (i : Nat) :
    firstIndex p l = some i ↔
      (∃ x, l[i]? = some x ∧ p x = true) ∧ ∀ k y, k < i → l[k]? = some y → p y = false := by
  induction l generalizing i with
  | nil => simp [firstIndex]
  | cons x rest ih =>
    by_cases hx : p x
    · cases i with
      | zero => simp [firstIndex, hx]
      | succ i =>
        simp only [firstIndex, hx, if_true, Option.some.injEq]
        constructor
        · intro h; omega
        · rintro ⟨_, h⟩
          have := h 0 x (by omega) (by simp)
          simp [hx] at this
    · cases i with
      | zero => simp [firstIndex, hx]
      | succ i =>
        simp only [firstIndex, hx, Option.map_eq_some', Nat.succ.injEq, exists_eq_right, ih]
        simp only [Bool.false_eq_true, if_false, Option.map_eq_some', Nat.succ.injEq, exists_eq_right, ih, List.getElem?_cons_succ]
        constructor
        · rintro ⟨h1, h2⟩
          refine ⟨h1, ?_⟩
          intro k y hk hy
          cases k with
          | zero => simp at hy; subst hy; simpa using hx
          | succ k => exact h2 k y (by omega) (by simpa using hy)
        · rintro ⟨h1, h2⟩
          exact ⟨h1, fun k y hk hy => h2 (k + 1) y (by omega) (by simpa using hy)⟩

theorem firstIndex_lt {α : Type} (p : α → Bool) (l : List α) (i : Nat)
    (h : firstIndex p l = some i) : i < l.length := by
  obtain ⟨⟨x, hx, _⟩, _⟩ := (firstIndex_eq_some p l i).1 h
  exact (List.getElem?_eq_some.1 hx).1

theorem firstIndex_modifyAt {α : Type} (p : α → Bool) (f : α → α) (i : Nat) (l : List α)
    (h : ∀ x, p (f x) = p x) : firstIndex p (modifyAt f i l) = firstIndex p l := by
  induction l generalizing i with
  | nil => simp [modifyAt, firstIndex]
  | cons x rest ih => cases i <;> simp [modifyAt, firstIndex, ih, h]

theorem firstIndex_append {α : Type} (p : α → Bool) (before : List α) (c : α)
    (after : List α) (hb : ∀ x ∈ before, p x = false) (hc : p c = true) :
    firstIndex p (before ++ c :: after) = some before.length := by
  induction before with
  | nil => simp [firstIndex, hc]
  | cons x rest ih =>
    have hx : p x = false := hb x (List.mem_cons_self _ _)
    simp [firstIndex, hx, ih (fun y hy => hb y (List.mem_cons_of_mem _ hy))]

theorem map_modifyAt {α β : Type} (g : α → β) (f : α → α) (hf : ∀ x, g (f x) = g x)
    (i : Nat) (l : List α) : (modifyAt f i l).map g = l.map g := by
  induction l generalizing i with
  | nil => simp [modifyAt]
  | cons x rest ih => cases i <;> simp [modifyAt, hf, ih]

theorem firstIndex_append_left {α : Type} (p : α → Bool) (l more : List α) (i : Nat)
    (h : firstIndex p l = some i) : firstIndex p (l ++ more) = some i := by
  induction l generalizing i with
  | nil => simp [firstIndex] at h
  | cons x rest ih =>
    by_cases hx : p x
    · simpa [firstIndex, hx] using h
    · simp only [firstIndex, hx, Bool.false_eq_true, if_false, Option.map_eq_some'] at h
      obtain ⟨k, hk, rfl⟩ := h
      simp [firstIndex, hx, ih k hk]

theorem firstIndex_isSome_of_mem {α : Type} (p : α → Bool) (l : List α) (x : α)
    (hx : x ∈ l) (hp : p x = true) : ∃ i, firstIndex p l = some i := by
  cases h : firstIndex p l with
  | none =>
    have := (firstIndex_eq_none p l).1 h x hx
    rw [hp] at this
    cases this
  | some i => exact ⟨i, rfl⟩

/-! ## Account operations: lemmas -/

theorem record_balance (a : Account) (k : String) (m : ℚ) (t : Int) :
    (a.record k m t).balance = a.balance := rfl

theorem sum_balance_modifyAt (f : Account → Account) (d : ℚ)
    (hf : ∀ a, (f a).balance = a.balance + d) (i : Nat) (l : List Account)
    (hi : i < l.length) :
    ((modifyAt f i l).map (fun a => a.balance)).sum
      = (l.map (fun a => a.balance)).sum + d := by
  induction l generalizing i with
  | nil => simp at hi
  | cons x rest ih =>
    cases i with
    | zero => simp [modifyAt, hf]; ring
    | succ i =>
      have := ih i (by simpa using hi)
      simp [modifyAt, this]; ring

theorem sum_total_modifyAt (f : Customer → Customer)
    (hf : ∀ c, (f c).total = c.total) (i : Nat) (l : List Customer) :
    ((modifyAt f i l).map Customer.total).sum = (l.map Customer.total).sum := by
  induction l generalizing i with
  | nil => simp [modifyAt]
  | cons x rest ih => cases i <;> simp [modifyAt, hf, ih]

theorem transfer_length (accounts : List Account) (i j : Nat) (m : ℚ) (t1 t2 : Int) :
    (Account.transfer accounts i j m t1 t2).length = accounts.length := by
  unfold Account.transfer
  split
  · rfl
  · split <;> simp [modifyAt_length]

theorem transfer_sum (accounts : List Account) (i j : Nat) (m : ℚ) (t1 t2 : Int)
    (hj : j < accounts.length) :
    ((Account.transfer accounts i j m t1 t2).map (fun a => a.balance)).sum
      = (accounts.map (fun a => a.balance)).sum := by
  unfold Account.transfer
  split
  · rfl
  · rename_i source hs
    have hi : i < accounts.length := (List.getElem?_eq_some.1 hs).1
    split
    · simp only []
      rw [sum_balance_modifyAt _ 0 (by intro a; simp [record_balance]) _ _ (by simpa [modifyAt_length] using hj),
        sum_balance_modifyAt _ 0 (by intro a; simp [record_balance]) _ _ (by simpa [modifyAt_length] using hi),
        sum_balance_modifyAt _ m (by intro a; simp) _ _ (by simpa [modifyAt_length] using hj),
        sum_balance_modifyAt _ (-m) (by intro a; simp; ring) _ _ hi]
      ring
    · rfl

theorem transfer_getAccount (c : Customer) (i j : Nat) (m : ℚ) (t1 t2 : Int) (n : Int) :
    firstIndex (fun acc => decide (acc.accountNumber = n)) (Account.transfer c.accounts i j m t1 t2)
      = firstIndex (fun acc => decide (acc.accountNumber = n)) c.accounts := by
  unfold Account.transfer
  split
  · rfl
  · split
    · simp only []
      repeat rw [firstIndex_modifyAt _ _ _ _ (by intro x; simp [Account.record])]
    · rfl

theorem transfer_rejected (accounts : List Account) (i j : Nat) (A : Account) (m : ℚ)
    (t1 t2 : Int) (hA : accounts[i]? = some A) (hm : A.balance < m) :
    Account.transfer accounts i j m t1 t2 = accounts := by
  simp [Account.transfer, hA, not_le.2 hm]

theorem transfer_getElem? (accounts : List Account) (i j k : Nat) (A : Account) (m : ℚ)
    (t1 t2 : Int) (hA : accounts[i]? = some A) (hm : m ≤ A.balance) :
    (Account.transfer accounts i j m t1 t2)[k]? =
      if k = i then
        if i = j then
          some ((({ A with balance := A.balance - m + m }).record "Transfer" m t1).record
            "Transfer" m t2)
        else some (({ A with balance := A.balance - m }).record "Transfer" m t1)
      else if k = j then
        (accounts[j]?).map fun B => ({ B with balance := B.balance + m }).record "Transfer" m t2
      else accounts[k]? := by
  simp only [Account.transfer, hA, hm, if_true, getElem?_modifyAt]
  by_cases hki : k = i
  · subst hki
    by_cases hij : k = j
    · simp [hij.symm ▸ hA, hij, Account.record]
    · simp [hij, hA]
  · by_cases hkj : k = j
    · subst hkj
      simp [hki]
      cases accounts[k]? <;> simp
    · simp [hki, hkj]

theorem transfer_distinct (accounts : List Account) (i j : Nat) (A B : Account) (m : ℚ)
    (t1 t2 : Int) (hij : i ≠ j) (hA : accounts[i]? = some A) (hB : accounts[j]? = some B)
    (hm : m ≤ A.balance) :
    (Account.transfer accounts i j m t1 t2)[i]? =
        some (({ A with balance := A.balance - m }).record "Transfer" m t1) ∧
    (Account.transfer accounts i j m t1 t2)[j]? =
        some (({ B with balance := B.balance + m }).record "Transfer" m t2) ∧
    ∀ k, k ≠ i → k ≠ j → (Account.transfer accounts i j m t1 t2)[k]? = accounts[k]? := by
  have hji : j ≠ i := fun h => hij h.symm
  simp only [Account.transfer, hA, hm, if_true, getElem?_modifyAt]
  refine ⟨by simp [hij, hA], by simp [hji, hB], ?_⟩
  intro k hki hkj
  simp [hki, hkj]

theorem transfer_self (accounts : List Account) (i : Nat) (A : Account) (m : ℚ)
    (t1 t2 : Int) (hA : accounts[i]? = some A) (hm : m ≤ A.balance) :
    (Account.transfer accounts i i m t1 t2)[i]? =
        some ((({ A with balance := A.balance - m + m }).record "Transfer" m t1).record
          "Transfer" m t2) ∧
    ∀ k, k ≠ i → (Account.transfer accounts i i m t1 t2)[k]? = accounts[k]? := by
  simp only [Account.transfer, hA, hm, if_true, getElem?_modifyAt]
  refine ⟨by simp [hA, Account.record], ?_⟩
  intro k hki
  simp [hki]

theorem mem_transfer (accounts : List Account) (i j : Nat) (m : ℚ) (t1 t2 : Int)
    (x : Account) (h : x ∈ Account.transfer accounts i j m t1 t2) :
    x ∈ accounts ∨
    ∃ A, A ∈ accounts ∧ m ≤ A.balance ∧
      (x = (({ A with balance := A.balance - m + m }).record "Transfer" m t1).record
            "Transfer" m t2 ∨
       x = ({ A with balance := A.balance - m }).record "Transfer" m t1 ∨
       ∃ B, B ∈ accounts ∧ x = ({ B with balance := B.balance + m }).record "Transfer" m t2) := by
  cases hA : accounts[i]? with
  | none => left; simpa [Account.transfer, hA] using h
  | some A =>
    have hAmem : A ∈ accounts := List.mem_iff_getElem?.2 ⟨i, hA⟩
    by_cases hm : m ≤ A.balance
    · obtain ⟨k, hk⟩ := List.mem_iff_getElem?.1 h
      rw [transfer_getElem? accounts i j k A m t1 t2 hA hm] at hk
      split_ifs at hk with h1 h2 h3
      · exact Or.inr ⟨A, hAmem, hm, Or.inl (Option.some.inj hk).symm⟩
      · exact Or.inr ⟨A, hAmem, hm, Or.inr (Or.inl (Option.some.inj hk).symm)⟩
      · cases hB : accounts[j]? with
        | none => simp [hB] at hk
        | some B =>
          simp only [hB, Option.map_some', Option.some.injEq] at hk
          exact Or.inr ⟨A, hAmem, hm, Or.inr (Or.inr ⟨B, List.mem_iff_getElem?.2 ⟨j, hB⟩, hk.symm⟩)⟩
      · exact Or.inl (List.mem_iff_getElem?.2 ⟨k, hk⟩)
    · left; simpa [Account.transfer, hA, hm] using h

theorem transfer_accountNumbers (accounts : List Account) (i j : Nat) (m : ℚ) (t1 t2 : Int) :
    (Account.transfer accounts i j m t1 t2).map (fun a => a.accountNumber)
      = accounts.map (fun a => a.accountNumber) := by
  unfold Account.transfer
  split
  · rfl
  · split
    · simp only []
      repeat rw [map_modifyAt _ _ (by intro x; simp [Account.record])]
    · rfl

theorem transfer_getElem?_of_ne (accounts : List Account) (i j k : Nat) (m : ℚ)
    (t1 t2 : Int) (hki : k ≠ i) (hkj : k ≠ j) :
    (Account.transfer accounts i j m t1 t2)[k]? = accounts[k]? := by
  unfold Account.transfer
  split
  · rfl
  · split
    · simp [getElem?_modifyAt, hki, hkj]
    · rfl

theorem numbered_record (a : Account) (kind : String) (m : ℚ) (t : Int)
    (h : Numbered a.transactions) : Numbered (a.record kind m t).transactions := by
  intro k x hx
  simp only [Account.record] at hx
  by_cases hk : k < a.transactions.length
  · rw [List.getElem?_append_left hk] at hx
    exact h k x hx
  · rw [List.getElem?_append_right (not_lt.1 hk)] at hx
    have hk0 : k - a.transactions.length = 0 := by
      by_contra hne
      obtain ⟨n, hn⟩ := Nat.exists_eq_succ_of_ne_zero hne
      rw [hn] at hx
      simp at hx
    rw [hk0] at hx
    simp only [List.getElem?_cons_zero, Option.some.injEq] at hx
    subst hx
    have : k = a.transactions.length := by omega
    simp [this]

theorem numbered_nodup (ts : List Transaction) (h : Numbered ts) :
    (∀ t ∈ ts, 0 < t.transactionID) ∧ (ts.map (fun t => t.transactionID)).Nodup := by
  refine ⟨?_, ?_⟩
  · intro t ht
    obtain ⟨k, hk⟩ := List.mem_iff_getElem?.1 ht
    rw [h k t hk]
    omega
  · rw [List.nodup_iff_getElem?_ne_getElem?]
    intro i j hij hj
    simp only [List.length_map] at hj
    have hi : i < ts.length := by omega
    simp only [List.getElem?_map, List.getElem?_eq_getElem hi, List.getElem?_eq_getElem hj,
      Option.map_some', ne_eq, Option.some.injEq]
    rw [h i _ (List.getElem?_eq_getElem hi), h j _ (List.getElem?_eq_getElem hj)]
    omega

theorem numbered_transfer (accounts : List Account) (i j : Nat) (m : ℚ) (t1 t2 : Int)
    (h : ∀ x ∈ accounts, Numbered x.transactions) :
    ∀ x ∈ Account.transfer accounts i j m t1 t2, Numbered x.transactions := by
  intro x hx
  rcases mem_transfer _ _ _ _ _ _ _ hx with hx | ⟨A, hA, _, rfl | rfl | ⟨B, hB, rfl⟩⟩
  · exact h x hx
  · exact numbered_record _ _ _ _ (numbered_record _ _ _ _ (h A hA))
  · exact numbered_record _ _ _ _ (h A hA)
  · exact numbered_record _ _ _ _ (h B hB)

theorem performTransfer_customers (bank : BankingService) (customerID a b : Int) (m : ℚ)
    (t1 t2 : Int) (ci : Nat) (h : bank.getCustomer customerID = some ci) :
    (bank.performTransfer customerID a b m t1 t2).customers =
      modifyAt (fun c => c.performTransfer a b m t1 t2) ci bank.customers := by
  simp [BankingService.performTransfer, h]

theorem Customer.performTransfer_total (c : Customer) (a b : Int) (m : ℚ) (t1 t2 : Int) :
    (c.performTransfer a b m t1 t2).total = c.total := by
  unfold Customer.performTransfer
  split
  · rename_i i j hi hj
    exact transfer_sum c.accounts i j m t1 t2 (firstIndex_lt _ _ _ hj)
  · rfl

theorem Customer.performTransfer_customerID (c : Customer) (a b : Int) (m : ℚ) (t1 t2 : Int) :
    (c.performTransfer a b m t1 t2).customerID = c.customerID := by
  unfold Customer.performTransfer
  split <;> rfl

theorem Customer.performTransfer_getAccount (c : Customer) (a b : Int) (m : ℚ) (t1 t2 : Int)
    (n : Int) : (c.performTransfer a b m t1 t2).getAccount n = c.getAccount n := by
  unfold Customer.performTransfer
  split
  · exact transfer_getAccount c _ _ m t1 t2 n
  · rfl

/-- An account property that holds of a new account and is kept by each
account operation (for amounts satisfying `ok`) is kept by every call whose
amount satisfies `ok`. -/
theorem step_allAccounts (P : Account → Prop) (ok : ℚ → Prop)
    (hnew : ∀ n, P ⟨n, 0, []⟩)
    (hdep : ∀ a m t, ok m → P a → P (a.deposit m t))
    (hwd : ∀ a m t, ok m → P a → P (a.withdraw m t))
    (hout : ∀ a m t, ok m → m ≤ a.balance → P a →
      P (({ a with balance := a.balance - m }).record "Transfer" m t))
    (hin : ∀ a m t, ok m → P a →
      P (({ a with balance := a.balance + m }).record "Transfer" m t))
    (hself : ∀ a m t1 t2, ok m → m ≤ a.balance → P a →
      P ((({ a with balance := a.balance - m + m }).record "Transfer" m t1).record
          "Transfer" m t2))
    (s : BankingService) (op : Op) (hop : ∀ m, op.amount? = some m → ok m)
    (hs : s.AllAccounts P) : (s.step op).AllAccounts P := by
  have key : ∀ (f : Customer → Customer) (i : Nat),
      (∀ c, (∀ a ∈ c.accounts, P a) → ∀ a ∈ (f c).accounts, P a) →
      BankingService.AllAccounts ⟨modifyAt f i s.customers⟩ P := by
    intro f i hf c hc
    rcases mem_modifyAt f i s.customers c hc with h | ⟨y, hy, rfl⟩
    · exact hs c h
    · exact hf y (hs y (List.mem_iff_getElem?.2 ⟨i, hy⟩))
  cases op with
  | addCustomer name customerID =>
    intro c hc a ha
    simp only [BankingService.step, BankingService.addCustomer, List.mem_append,
      List.mem_singleton] at hc
    rcases hc with hc | rfl
    · exact hs c hc a ha
    · simp at ha
  | addAccount customerID accountNumber =>
    simp only [BankingService.step, BankingService.addAccount]
    split
    · apply key
      intro c hc a ha
      simp only [Customer.addAccount, List.mem_append, List.mem_singleton] at ha
      rcases ha with ha | rfl
      · exact hc a ha
      · exact hnew _
    · exact hs
  | performDeposit customerID accountNumber amount now =>
    have hok := hop amount rfl
    simp only [BankingService.step, BankingService.performDeposit]
    split
    · apply key
      intro c hc a ha
      unfold Customer.performDeposit at ha
      split at ha
      · rcases mem_modifyAt _ _ _ _ ha with h | ⟨y, hy, rfl⟩
        · exact hc a h
        · exact hdep y _ _ hok (hc y (List.mem_iff_getElem?.2 ⟨_, hy⟩))
      · exact hc a ha
    · exact hs
  | performWithdrawal customerID accountNumber amount now =>
    have hok := hop amount rfl
    simp only [BankingService.step, BankingService.performWithdrawal]
    split
    · apply key
      intro c hc a ha
      unfold Customer.performWithdrawal at ha
      split at ha
      · rcases mem_modifyAt _ _ _ _ ha with h | ⟨y, hy, rfl⟩
        · exact hc a h
        · exact hwd y _ _ hok (hc y (List.mem_iff_getElem?.2 ⟨_, hy⟩))
      · exact hc a ha
    · exact hs
  | performTransfer customerID fromAccountNumber toAccountNumber amount t1 t2 =>
    have hok := hop amount rfl
    simp only [BankingService.step, BankingService.performTransfer]
    split
    · apply key
      intro c hc a ha
      unfold Customer.performTransfer at ha
      split at ha
      · rcases mem_transfer _ _ _ _ _ _ _ ha with h | ⟨A, hA, hm, rfl | rfl | ⟨B, hB, rfl⟩⟩
        · exact hc a h
        · exact hself A _ _ _ hok hm (hc A hA)
        · exact hout A _ _ hok hm (hc A hA)
        · exact hin B _ _ hok (hc B hB)
      · exact hc a ha
    · exact hs

theorem run_allAccounts (P : Account → Prop) (ok : ℚ → Prop)
    (hnew : ∀ n, P ⟨n, 0, []⟩)
    (hdep : ∀ a m t, ok m → P a → P (a.deposit m t))
    (hwd : ∀ a m t, ok m → P a → P (a.withdraw m t))
    (hout : ∀ a m t, ok m → m ≤ a.balance → P a →
      P (({ a with balance := a.balance - m }).record "Transfer" m t))
    (hin : ∀ a m t, ok m → P a →
      P (({ a with balance := a.balance + m }).record "Transfer" m t))
    (hself : ∀ a m t1 t2, ok m → m ≤ a.balance → P a →
      P ((({ a with balance := a.balance - m + m }).record "Transfer" m t1).record
          "Transfer" m t2))
    (ops : List Op) (hops : ∀ op ∈ ops, ∀ m, op.amount? = some m → ok m)
    (s : BankingService) (hs : s.AllAccounts P) : (s.run ops).AllAccounts P := by
  induction ops generalizing s with
  | nil => exact hs
  | cons op ops ih =>
    exact ih (fun o ho => hops o (List.mem_cons_of_mem _ ho)) _
      (step_allAccounts P ok hnew hdep hwd hout hin hself s op
        (hops op (List.mem_cons_self _ _)) hs)

theorem loadLoop_no_accounts (lines : List (List Char)) :
    ∀ (inner : Option Customer) (customers result : List Customer),
      (∀ c ∈ customers, c.accounts = [] ∧ c.name = "") →
      loadLoop inner customers lines = some result →
      ∀ c ∈ result, c.accounts = [] ∧ c.name = "" := by
  induction lines with
  | nil =>
    intro l customers result h hr
    cases l <;> simp only [loadLoop, Option.some.injEq] at hr <;> exact hr ▸ h
  | cons line rest ih =>
    intro l customers result h hr
    cases l with
    | none =>
      simp only [loadLoop] at hr
      split at hr
      · cases hr
      · refine ih _ _ result ?_ hr
        intro c hc
        rcases List.mem_append.1 hc with hc | hc
        · exact h c hc
        · rw [List.mem_singleton.1 hc]; exact ⟨rfl, rfl⟩
    | some customer =>
      simp only [loadLoop] at hr
      split at hr
      · exact ih _ _ result h hr
      · split at hr
        · cases hr
        · exact ih _ _ result h hr

theorem Customer.performDeposit_customerID (c : Customer) (a : Int) (m : ℚ) (t : Int) :
    (c.performDeposit a m t).customerID = c.customerID := by
  unfold Customer.performDeposit
  split <;> rfl

theorem Customer.performWithdrawal_customerID (c : Customer) (a : Int) (m : ℚ) (t : Int) :
    (c.performWithdrawal a m t).customerID = c.customerID := by
  unfold Customer.performWithdrawal
  split <;> rfl

theorem step_customerIDs (s : BankingService) (op : Op) :
    (s.step op).customers.map (fun c => c.customerID)
      = s.customers.map (fun c => c.customerID) ++ op.newCustomerID?.toList := by
  cases op with
  | addCustomer name customerID =>
    simp [BankingService.step, BankingService.addCustomer, Op.newCustomerID?]
  | addAccount customerID accountNumber =>
    simp only [BankingService.step, BankingService.addAccount, Op.newCustomerID?,
      Option.toList, List.append_nil]
    split
    · exact map_modifyAt (fun c : Customer => c.customerID)
        (fun c : Customer => c.addAccount accountNumber) (fun x => rfl) _ _
    · rfl
  | performDeposit customerID accountNumber amount now =>
    simp only [BankingService.step, BankingService.performDeposit, Op.newCustomerID?,
      Option.toList, List.append_nil]
    split
    · exact map_modifyAt _ _ (fun x => x.performDeposit_customerID _ _ _) _ _
    · rfl
  | performWithdrawal customerID accountNumber amount now =>
    simp only [BankingService.step, BankingService.performWithdrawal, Op.newCustomerID?,
      Option.toList, List.append_nil]
    split
    · exact map_modifyAt _ _ (fun x => x.performWithdrawal_customerID _ _ _) _ _
    · rfl
  | performTransfer customerID fromAccountNumber toAccountNumber amount t1 t2 =>
    simp only [BankingService.step, BankingService.performTransfer, Op.newCustomerID?,
      Option.toList, List.append_nil]
    split
    · exact map_modifyAt _ _ (fun x => x.performTransfer_customerID _ _ _ _ _) _ _
    · rfl

theorem run_customerIDs (ops : List Op) (s : BankingService) :
    (s.run ops).customers.map (fun c => c.customerID)
      = s.customers.map (fun c => c.customerID) ++ ops.filterMap Op.newCustomerID? := by
  induction ops generalizing s with
  | nil => simp [BankingService.run]
  | cons op ops ih =>
    rw [BankingService.run, ih, step_customerIDs]
    cases h : op.newCustomerID? <;> simp [List.filterMap_cons, h]

theorem foldl_addAccount_numbers (ns : List Int) (c : Customer) :
    (ns.foldl Customer.addAccount c).accounts.map (fun a => a.accountNumber)
      = c.accounts.map (fun a => a.accountNumber) ++ ns := by
  induction ns generalizing c with
  | nil => simp
  | cons n ns ih => simp [List.foldl_cons, ih, Customer.addAccount]

theorem Customer.performDeposit_skeleton (c : Customer) (n : Int) (m : ℚ) (t : Int) :
    (c.performDeposit n m t).skeleton = c.skeleton := by
  unfold Customer.performDeposit
  split
  · simp only [Customer.skeleton]
    rw [map_modifyAt _ _ (by intro x; simp [Account.deposit, Account.record])]
  · rfl

theorem Customer.performWithdrawal_skeleton (c : Customer) (n : Int) (m : ℚ) (t : Int) :
    (c.performWithdrawal n m t).skeleton = c.skeleton := by
  unfold Customer.performWithdrawal
  split
  · simp only [Customer.skeleton]
    rw [map_modifyAt _ _ (by
      intro x
      simp only [Account.withdraw]
      split <;> simp [Account.record])]
  · rfl

theorem Customer.performTransfer_skeleton (c : Customer) (a b : Int) (m : ℚ) (t1 t2 : Int) :
    (c.performTransfer a b m t1 t2).skeleton = c.skeleton := by
  unfold Customer.performTransfer
  split
  · simp only [Customer.skeleton, transfer_accountNumbers]
  · rfl

theorem Customer.performDeposit_getElem? (c : Customer) (n : Int) (m : ℚ) (t : Int)
    (k : Nat) :
    (c.performDeposit n m t).accounts[k]? =
      if c.getAccount n = some k then (c.accounts[k]?).map (fun a => a.deposit m t)
      else c.accounts[k]? := by
  unfold Customer.performDeposit
  split
  · rename_i j hj
    simp only [getElem?_modifyAt, hj, Option.some.injEq]
    by_cases h : k = j
    · simp [h]
    · simp [h, Ne.symm h]
  · rename_i hj
    simp [hj]

theorem Customer.performWithdrawal_getElem? (c : Customer) (n : Int) (m : ℚ) (t : Int)
    (k : Nat) :
    (c.performWithdrawal n m t).accounts[k]? =
      if c.getAccount n = some k then (c.accounts[k]?).map (fun a => a.withdraw m t)
      else c.accounts[k]? := by
  unfold Customer.performWithdrawal
  split
  · rename_i j hj
    simp only [getElem?_modifyAt, hj, Option.some.injEq]
    by_cases h : k = j
    · simp [h]
    · simp [h, Ne.symm h]
  · rename_i hj
    simp [hj]

theorem Customer.performTransfer_getElem?_of_ne (c : Customer) (a b : Int) (m : ℚ)
    (t1 t2 : Int) (k : Nat) (ha : c.getAccount a ≠ some k) (hb : c.getAccount b ≠ some k) :
    (c.performTransfer a b m t1 t2).accounts[k]? = c.accounts[k]? := by
  unfold Customer.performTransfer
  split
  · rename_i i j hi hj
    exact transfer_getElem?_of_ne _ _ _ _ _ _ _
      (fun h => ha (by rw [hi, h])) (fun h => hb (by rw [hj, h]))
  · rfl

theorem accountAt_modifyAt (bank : BankingService) (f : Customer → Customer) (r ci ai : Nat) :
    BankingService.accountAt ⟨modifyAt f r bank.customers⟩ ci ai =
      if ci = r then (bank.customers[ci]?).bind fun c => (f c).accounts[ai]?
      else bank.accountAt ci ai := by
  simp only [BankingService.accountAt, getElem?_modifyAt]
  by_cases h : ci = r
  · simp only [h, if_true]
    cases bank.customers[r]? <;> rfl
  · simp [h]

/-- The store reached by `selfTransferOps` from the empty store. -/
theorem selfTransferOps_run :
    BankingService.empty.run selfTransferOps =
      ⟨[⟨"Alice", 1001,
          [⟨2001, 400, [⟨1, "Deposit", 500, 10⟩, ⟨2, "Withdrawal", 100, 11⟩,
                        ⟨3, "Transfer", 150, 12⟩, ⟨4, "Transfer", 150, 13⟩]⟩]⟩]⟩ := by
  decide!

/-! ## The ledger of a run: lemmas -/

theorem ledger_post (a a' : Account) (L : List (Leg × ℚ)) (leg : Leg) (m : ℚ)
    (id : Int) (t : Int)
    (ht : a'.transactions = a.transactions ++ [⟨id, leg.kind, m, t⟩])
    (hb : a'.balance = a.balance + leg.signed m) (h : a.Ledger L) :
    a'.Ledger (L ++ [(leg, m)]) := by
  obtain ⟨h1, h2⟩ := h
  refine ⟨?_, ?_⟩
  · rw [ht]
    simp [h1]
  · rw [hb, h2]
    simp

theorem ledger_deposit (a : Account) (L : List (Leg × ℚ)) (m : ℚ) (t : Int)
    (h : a.Ledger L) : (a.deposit m t).Ledger (L ++ [(Leg.deposit, m)]) :=
  ledger_post a _ L Leg.deposit m _ t rfl rfl h

theorem ledger_out (a : Account) (L : List (Leg × ℚ)) (m : ℚ) (t : Int) (h : a.Ledger L) :
    (({ a with balance := a.balance - m }).record "Transfer" m t).Ledger
      (L ++ [(Leg.transferOut, m)]) :=
  ledger_post a _ L Leg.transferOut m _ t rfl (by simp [Account.record, Leg.signed, sub_eq_add_neg]) h

theorem ledger_in (a : Account) (L : List (Leg × ℚ)) (m : ℚ) (t : Int) (h : a.Ledger L) :
    (({ a with balance := a.balance + m }).record "Transfer" m t).Ledger
      (L ++ [(Leg.transferIn, m)]) :=
  ledger_post a _ L Leg.transferIn m _ t rfl rfl h

theorem ledger_withdraw (a : Account) (L : List (Leg × ℚ)) (m : ℚ) (t : Int)
    (h : a.Ledger L) :
    (a.withdraw m t).Ledger (L ++ if m ≤ a.balance then [(Leg.withdrawal, m)] else []) := by
  unfold Account.withdraw
  split
  · exact ledger_post a _ L Leg.withdrawal m _ t rfl
      (by simp [Account.record, Leg.signed, sub_eq_add_neg]) h
  · simpa using h

theorem Customer.ledger_addAccount (c : Customer) (ai : Nat) (L : List (Leg × ℚ)) (n : Int)
    (h : c.LedgerAt ai L) : (c.addAccount n).LedgerAt ai L := by
  unfold Customer.LedgerAt at h ⊢
  simp only [Customer.addAccount]
  cases ha : c.accounts[ai]? with
  | some a =>
    rw [List.getElem?_append_left (List.getElem?_eq_some.1 ha).1, ha]
    simpa [ha] using h
  | none =>
    rw [ha] at h
    simp only at h
    subst h
    have hlen : c.accounts.length ≤ ai := List.getElem?_eq_none_iff.1 ha
    rw [List.getElem?_append_right hlen]
    cases hk : ai - c.accounts.length with
    | zero => exact ⟨rfl, rfl⟩
    | succ k => simp

theorem Customer.ledger_performDeposit (c : Customer) (ai : Nat) (L : List (Leg × ℚ))
    (cid n : Int) (m : ℚ) (t : Int) (h : c.LedgerAt ai L) :
    (c.performDeposit n m t).LedgerAt ai (L ++ c.legsAt ai (.performDeposit cid n m t)) := by
  unfold Customer.LedgerAt at h ⊢
  rw [Customer.performDeposit_getElem?]
  simp only [Customer.legsAt]
  by_cases hres : c.getAccount n = some ai
  · have hlt := firstIndex_lt _ _ _ hres
    have ha : c.accounts[ai]? = some (c.accounts[ai]) := List.getElem?_eq_getElem hlt
    rw [if_pos hres, if_pos hres, ha]
    rw [ha] at h
    exact ledger_deposit _ L m t h
  · rw [if_neg hres, if_neg hres, List.append_nil]
    exact h

theorem Customer.ledger_performWithdrawal (c : Customer) (ai : Nat) (L : List (Leg × ℚ))
    (cid n : Int) (m : ℚ) (t : Int) (h : c.LedgerAt ai L) :
    (c.performWithdrawal n m t).LedgerAt ai
      (L ++ c.legsAt ai (.performWithdrawal cid n m t)) := by
  unfold Customer.LedgerAt at h ⊢
  rw [Customer.performWithdrawal_getElem?]
  simp only [Customer.legsAt]
  by_cases hres : c.getAccount n = some ai
  · have hlt := firstIndex_lt _ _ _ hres
    have ha : c.accounts[ai]? = some (c.accounts[ai]) := List.getElem?_eq_getElem hlt
    rw [if_pos hres, if_pos hres, ha]
    rw [ha] at h
    exact ledger_withdraw _ L m t h
  · rw [if_neg hres, if_neg hres, List.append_nil]
    exact h

theorem Customer.ledger_performTransfer (c : Customer) (ai : Nat) (L : List (Leg × ℚ))
    (cid n1 n2 : Int) (m : ℚ) (t1 t2 : Int) (h : c.LedgerAt ai L) :
    (c.performTransfer n1 n2 m t1 t2).LedgerAt ai
      (L ++ c.legsAt ai (.performTransfer cid n1 n2 m t1 t2)) := by
  unfold Customer.LedgerAt at h ⊢
  simp only [Customer.legsAt, Customer.performTransfer]
  cases hi : c.getAccount n1 with
  | none =>
    simp only [List.append_nil]
    exact h
  | some i =>
    cases hj : c.getAccount n2 with
    | none =>
      simp only [List.append_nil]
      exact h
    | some j =>
      simp only []
      have hilt := firstIndex_lt _ _ _ hi
      have hjlt := firstIndex_lt _ _ _ hj
      have hA : c.accounts[i]? = some (c.accounts[i]) := List.getElem?_eq_getElem hilt
      have hB : c.accounts[j]? = some (c.accounts[j]) := List.getElem?_eq_getElem hjlt
      rw [hA]
      simp only []
      by_cases hm : m ≤ (c.accounts[i]).balance
      · rw [if_pos hm, transfer_getElem? c.accounts i j ai _ m t1 t2 hA hm]
        by_cases hai : ai = i
        · subst hai
          rw [hA] at h
          rw [if_pos rfl, if_pos rfl]
          by_cases hij : ai = j
          · rw [if_pos hij, if_pos hij.symm, ← List.append_assoc]
            exact ledger_in _ _ m t2 (ledger_out _ L m t1 h)
          · rw [if_neg hij, if_neg (fun e => hij e.symm), List.append_nil]
            exact ledger_out _ L m t1 h
        · have hia : ¬ i = ai := fun e => hai e.symm
          by_cases haj : ai = j
          · subst haj
            rw [hB] at h
            simp only [hai, hia, if_false, if_true, hB, Option.map_some', List.nil_append]
            exact ledger_in _ L m t2 h
          · have hja : ¬ j = ai := fun e => haj e.symm
            simp only [hai, hia, haj, hja, if_false, List.append_nil]
            exact h
      · rw [if_neg hm, transfer_rejected c.accounts i j _ m t1 t2 hA (not_le.1 hm),
          List.append_nil]
        exact h

/-- A call that runs `f` through the pointer to the customer at `r` keeps the
ledgers of all positions when `f` does so inside that customer. -/
theorem ledgerAt_modifyAt (s : BankingService) (f : Customer → Customer) (r ci ai : Nat)
    (L extra : List (Leg × ℚ)) (h : s.LedgerAt ci ai L)
    (hf : ∀ c, s.customers[r]? = some c → ci = r → c.LedgerAt ai L →
      (f c).LedgerAt ai (L ++ extra))
    (hne : ci ≠ r → extra = []) (hnone : s.customers[ci]? = none → extra = []) :
    BankingService.LedgerAt ⟨modifyAt f r s.customers⟩ ci ai (L ++ extra) := by
  unfold BankingService.LedgerAt at h ⊢
  simp only [getElem?_modifyAt]
  by_cases hci : ci = r
  · rw [if_pos hci]
    cases hc : s.customers[ci]? with
    | none =>
      rw [hc] at h
      simp only [Option.map_none']
      simp only at h
      rw [h, hnone hc]
      rfl
    | some c =>
      rw [hc] at h
      simp only [Option.map_some']
      exact hf c (hci ▸ hc) hci h
  · rw [if_neg hci, hne hci, List.append_nil]
    exact h

theorem step_ledgerAt (s : BankingService) (op : Op) (ci ai : Nat) (L : List (Leg × ℚ))
    (h : s.LedgerAt ci ai L) : (s.step op).LedgerAt ci ai (L ++ s.legsAt ci ai op) := by
  cases op with
  | addCustomer name customerID =>
    simp only [BankingService.legsAt, Op.customerID?, List.append_nil, BankingService.step,
      BankingService.addCustomer]
    unfold BankingService.LedgerAt at h ⊢
    cases hc : s.customers[ci]? with
    | some c =>
      rw [List.getElem?_append_left (List.getElem?_eq_some.1 hc).1, hc]
      simpa [hc] using h
    | none =>
      rw [hc] at h
      simp only at h
      subst h
      have hlen : s.customers.length ≤ ci := List.getElem?_eq_none_iff.1 hc
      rw [List.getElem?_append_right hlen]
      cases hk : ci - s.customers.length with
      | zero => simp [Customer.LedgerAt]
      | succ k => simp
  | addAccount customerID accountNumber =>
    simp only [BankingService.step, BankingService.addAccount]
    cases hg : s.getCustomer customerID with
    | none =>
      simp only [BankingService.legsAt, Op.customerID?, hg]
      simpa using h
    | some r =>
      simp only []
      refine ledgerAt_modifyAt s _ r ci ai L _ h ?_ ?_ ?_
      · intro c hc hci hl
        subst hci
        simp only [BankingService.legsAt, Op.customerID?, hg, if_true, hc, Customer.legsAt,
          List.append_nil]
        exact c.ledger_addAccount ai L accountNumber hl
      · intro hne
        have : ¬ some r = some ci := fun e => hne (Option.some.inj e).symm
        simp [BankingService.legsAt, Op.customerID?, hg, this]
      · intro hnone
        simp only [BankingService.legsAt, Op.customerID?, hnone]
        split <;> rfl
  | performDeposit customerID accountNumber amount now =>
    simp only [BankingService.step, BankingService.performDeposit]
    cases hg : s.getCustomer customerID with
    | none =>
      simp only [BankingService.legsAt, Op.customerID?, hg]
      simpa using h
    | some r =>
      simp only []
      refine ledgerAt_modifyAt s _ r ci ai L _ h ?_ ?_ ?_
      · intro c hc hci hl
        subst hci
        simp only [BankingService.legsAt, Op.customerID?, hg, if_true, hc]
        exact c.ledger_performDeposit ai L customerID accountNumber amount now hl
      · intro hne
        have : ¬ some r = some ci := fun e => hne (Option.some.inj e).symm
        simp [BankingService.legsAt, Op.customerID?, hg, this]
      · intro hnone
        simp only [BankingService.legsAt, Op.customerID?, hnone]
        split <;> rfl
  | performWithdrawal customerID accountNumber amount now =>
    simp only [BankingService.step, BankingService.performWithdrawal]
    cases hg : s.getCustomer customerID with
    | none =>
      simp only [BankingService.legsAt, Op.customerID?, hg]
      simpa using h
    | some r =>
      simp only []
      refine ledgerAt_modifyAt s _ r ci ai L _ h ?_ ?_ ?_
      · intro c hc hci hl
        subst hci
        simp only [BankingService.legsAt, Op.customerID?, hg, if_true, hc]
        exact c.ledger_performWithdrawal ai L customerID accountNumber amount now hl
      · intro hne
        have : ¬ some r = some ci := fun e => hne (Option.some.inj e).symm
        simp [BankingService.legsAt, Op.customerID?, hg, this]
      · intro hnone
        simp only [BankingService.legsAt, Op.customerID?, hnone]
        split <;> rfl
  | performTransfer customerID fromAccountNumber toAccountNumber amount t1 t2 =>
    simp only [BankingService.step, BankingService.performTransfer]
    cases hg : s.getCustomer customerID with
    | none =>
      simp only [BankingService.legsAt, Op.customerID?, hg]
      simpa using h
    | some r =>
      simp only []
      refine ledgerAt_modifyAt s _ r ci ai L _ h ?_ ?_ ?_
      · intro c hc hci hl
        subst hci
        simp only [BankingService.legsAt, Op.customerID?, hg, if_true, hc]
        exact c.ledger_performTransfer ai L customerID fromAccountNumber toAccountNumber
          amount t1 t2 hl
      · intro hne
        have : ¬ some r = some ci := fun e => hne (Option.some.inj e).symm
        simp [BankingService.legsAt, Op.customerID?, hg, this]
      · intro hnone
        simp only [BankingService.legsAt, Op.customerID?, hnone]
        split <;> rfl

theorem run_ledgerAt (ops : List Op) (s : BankingService) (ci ai : Nat) (L : List (Leg × ℚ))
    (h : s.LedgerAt ci ai L) : (s.run ops).LedgerAt ci ai (L ++ s.legs ci ai ops) := by
  induction ops generalizing s L with
  | nil => simpa [BankingService.run, BankingService.legs] using h
  | cons op ops ih =>
    simp only [BankingService.run, BankingService.legs]
    rw [← List.append_assoc]
    exact ih (s.step op) _ (step_ledgerAt s op ci ai L h)

/-! ## The claims -/

/-- Claim C1 (conservation).  For every store, customer ID, pair of account
numbers (equal or different), amount and clock readings, `performTransfer`
leaves the total of all balances of the store unchanged; and when the two
account numbers resolve to accounts `A` and `B`, they still resolve afterwards
and the sum of the two balances is what it was.  This covers the transfer that
is made, the one rejected for insufficient funds and the one whose resolution
fails. -/
theorem performTransfer_conservation (bank : BankingService)
    (customerID fromAccountNumber toAccountNumber : Int) (amount : ℚ) (t1 t2 : Int) :
    (bank.performTransfer customerID fromAccountNumber toAccountNumber amount t1 t2).total
        = bank.total ∧
    ∀ A B : Account,
      bank.findAccount customerID fromAccountNumber = some A →
      bank.findAccount customerID toAccountNumber = some B →
      ∃ A' B' : Account,
        (bank.performTransfer customerID fromAccountNumber toAccountNumber amount
            t1 t2).findAccount customerID fromAccountNumber = some A' ∧
        (bank.performTransfer customerID fromAccountNumber toAccountNumber amount
            t1 t2).findAccount customerID toAccountNumber = some B' ∧
        A'.balance + B'.balance = A.balance + B.balance := by
  cases hc : bank.getCustomer customerID with
  | none =>
    have : bank.performTransfer customerID fromAccountNumber toAccountNumber amount t1 t2 = bank := by
      simp [BankingService.performTransfer, hc]
    rw [this]
    exact ⟨rfl, fun A B hA hB => ⟨A, B, hA, hB, rfl⟩⟩
  | some ci =>
    have hcust := performTransfer_customers bank customerID fromAccountNumber toAccountNumber amount t1 t2 ci hc
    refine ⟨?_, ?_⟩
    · unfold BankingService.total
      rw [hcust]
      exact sum_total_modifyAt _ (fun c => c.performTransfer_total _ _ _ _ _) _ _
    · intro A B hA hB
      have hc' : (bank.performTransfer customerID fromAccountNumber toAccountNumber amount t1 t2).getCustomer customerID = some ci := by
        unfold BankingService.getCustomer
        rw [hcust, firstIndex_modifyAt _ _ _ _ (fun c => by simp [Customer.performTransfer_customerID])]
        exact hc
      simp only [BankingService.findAccount, hc, hc', Option.some_bind, hcust, getElem?_modifyAt, if_true] at hA hB ⊢
      cases hcu : bank.customers[ci]? with
      | none => simp [hcu] at hA
      | some c =>
        simp only [hcu, Option.some_bind, Option.map_some', Customer.performTransfer_getAccount] at hA hB ⊢
        cases hi : c.getAccount fromAccountNumber with
        | none => simp [hi] at hA
        | some i =>
          cases hj : c.getAccount toAccountNumber with
          | none => simp [hj] at hB
          | some j =>
            simp only [hi, hj, Option.some_bind] at hA hB ⊢
            simp only [Customer.performTransfer, hi, hj]
            by_cases hm : amount ≤ A.balance
            · by_cases hij : i = j
              · subst hij
                rw [hA] at hB
                cases hB
                refine ⟨_, _, (transfer_self _ _ A _ t1 t2 hA hm).1, (transfer_self _ _ A _ t1 t2 hA hm).1, ?_⟩
                simp [record_balance]
              · obtain ⟨h1, h2, _⟩ := transfer_distinct _ _ _ A B _ t1 t2 hij hA hB hm
                refine ⟨_, _, h1, h2, ?_⟩
                simp [record_balance]
            · rw [transfer_rejected _ _ _ A _ _ _ hA (not_le.1 hm)]
              exact ⟨A, B, hA, hB, rfl⟩

/-- Claim C1 at a concrete input: 150 moved from account 2001 (balance 400) to
account 2003 (balance 0) of customer 1001. -/
theorem performTransfer_conservation_witness :
    ∃ A' B' : Account,
      (sampleStore.performTransfer 1001 2001 2003 150 12 12).findAccount 1001 2001 = some A' ∧
      (sampleStore.performTransfer 1001 2001 2003 150 12 12).findAccount 1001 2003 = some B' ∧
      A'.balance + B'.balance = 400 + 0 :=
  (performTransfer_conservation sampleStore 1001 2001 2003 150 12 12).2
    ⟨2001, 400, [⟨1, "Deposit", 500, 10⟩, ⟨2, "Withdrawal", 100, 11⟩]⟩ ⟨2003, 0, []⟩
    (by decide!) (by decide!)

/-- Claim C2 (transfer postcondition).  For two distinct accounts `A` (at
position `i`) and `B` (at position `j`) and an amount `m ≤ A.balance`, after
the transfer `A` has balance `A.balance - m`, `B` has balance `B.balance + m`,
each history has grown at its end by exactly one `Transfer` record of amount
`m` carrying the next sequence number, and nothing else has changed. -/
theorem transfer_postcondition (accounts : List Account) (i j : Nat) (A B : Account)
    (m : ℚ) (t1 t2 : Int) (hij : i ≠ j) (hA : accounts[i]? = some A)
    (hB : accounts[j]? = some B) (hm : m ≤ A.balance) :
    (Account.transfer accounts i j m t1 t2)[i]? =
      some { accountNumber := A.accountNumber, balance := A.balance - m,
             transactions := A.transactions ++
               [⟨(A.transactions.length : Int) + 1, "Transfer", m, t1⟩] } ∧
    (Account.transfer accounts i j m t1 t2)[j]? =
      some { accountNumber := B.accountNumber, balance := B.balance + m,
             transactions := B.transactions ++
               [⟨(B.transactions.length : Int) + 1, "Transfer", m, t2⟩] } ∧
    (Account.transfer accounts i j m t1 t2).length = accounts.length ∧
    ∀ k, k ≠ i → k ≠ j → (Account.transfer accounts i j m t1 t2)[k]? = accounts[k]? := by
  obtain ⟨h1, h2, h3⟩ := transfer_distinct accounts i j A B m t1 t2 hij hA hB hm
  exact ⟨h1, h2, transfer_length _ _ _ _ _ _, h3⟩

/-- Claim C2 at a concrete input: 150 from an account holding 400 to an empty
one. -/
theorem transfer_postcondition_witness :
    (Account.transfer [⟨2001, 400, []⟩, ⟨2003, 0, []⟩] 0 1 150 12 13)[0]? =
      some ⟨2001, 250, [⟨1, "Transfer", 150, 12⟩]⟩ ∧
    (Account.transfer [⟨2001, 400, []⟩, ⟨2003, 0, []⟩] 0 1 150 12 13)[1]? =
      some ⟨2003, 150, [⟨1, "Transfer", 150, 13⟩]⟩ := by
  have h := transfer_postcondition [⟨2001, 400, []⟩, ⟨2003, 0, []⟩] 0 1 ⟨2001, 400, []⟩
    ⟨2003, 0, []⟩ 150 12 13 (by decide) rfl rfl (by norm_num)
  norm_num at h
  exact ⟨h.1, h.2.1⟩

/-- Claim C3 (insufficient funds is atomic).  When the amount exceeds the
balance of `A`, `withdraw` returns `A` as it was (balance and history), and a
transfer out of `A` leaves the whole vector of accounts as it was, so the
source and the target keep their balance and history. -/
theorem insufficient_funds_atomic (A : Account) (amount : ℚ) (h : A.balance < amount) :
    (∀ now : Int, A.withdraw amount now = A) ∧
    ∀ (accounts : List Account) (i j : Nat) (t1 t2 : Int), accounts[i]? = some A →
      Account.transfer accounts i j amount t1 t2 = accounts := by
  refine ⟨fun now => ?_, fun accounts i j t1 t2 hA => transfer_rejected accounts i j A amount t1 t2 hA h⟩
  simp [Account.withdraw, not_le.2 h]

/-- Claim C3 at a concrete input: 1000 asked of an account holding 400. -/
theorem insufficient_funds_atomic_witness :
    (∀ now : Int,
      Account.withdraw ⟨2001, 400, [⟨1, "Deposit", 500, 10⟩, ⟨2, "Withdrawal", 100, 11⟩]⟩
        1000 now = ⟨2001, 400, [⟨1, "Deposit", 500, 10⟩, ⟨2, "Withdrawal", 100, 11⟩]⟩) ∧
    ∀ (accounts : List Account) (i j : Nat) (t1 t2 : Int),
      accounts[i]? = some ⟨2001, 400, [⟨1, "Deposit", 500, 10⟩, ⟨2, "Withdrawal", 100, 11⟩]⟩ →
      Account.transfer accounts i j 1000 t1 t2 = accounts :=
  insufficient_funds_atomic
    ⟨2001, 400, [⟨1, "Deposit", 500, 10⟩, ⟨2, "Withdrawal", 100, 11⟩]⟩ 1000 (by norm_num)

/-- Claim C4 (ledger invariant).  In every store reached from the empty store
by any sequence of calls, every account of every customer sits at a position
`(ci, ai)`, and for the account at any position the history lists, record by
record, the kind and the amount of the legs posted on that position during the
run, and the balance is the sum of their signed amounts: deposits and incoming
transfers positive, withdrawals and outgoing transfers negative. -/
theorem ledger_invariant (ops : List Op) :
    (∀ c ∈ (BankingService.empty.run ops).customers, ∀ a ∈ c.accounts,
      ∃ ci ai, (BankingService.empty.run ops).accountAt ci ai = some a) ∧
    ∀ (ci ai : Nat) (a : Account),
      (BankingService.empty.run ops).accountAt ci ai = some a →
      a.transactions.map (fun t => (t.transactionType, t.amount))
        = (BankingService.empty.legs ci ai ops).map (fun e => (e.1.kind, e.2)) ∧
      a.balance
        = ((BankingService.empty.legs ci ai ops).map fun e => e.1.signed e.2).sum := by
  refine ⟨?_, ?_⟩
  · intro c hc a ha
    obtain ⟨ci, hci⟩ := List.mem_iff_getElem?.1 hc
    obtain ⟨ai, hai⟩ := List.mem_iff_getElem?.1 ha
    exact ⟨ci, ai, by simp [BankingService.accountAt, hci, hai]⟩
  · intro ci ai a h
    have h0 : BankingService.empty.LedgerAt ci ai [] := by
      simp [BankingService.LedgerAt, BankingService.empty]
    have h1 := run_ledgerAt ops BankingService.empty ci ai [] h0
    simp only [List.nil_append, BankingService.LedgerAt] at h1
    simp only [BankingService.accountAt] at h
    cases hc : (BankingService.empty.run ops).customers[ci]? with
    | none => simp [hc] at h
    | some c =>
      rw [hc] at h h1
      simp only [Option.some_bind] at h
      simp only [Customer.LedgerAt, h] at h1
      exact h1

/-- Claim C4 at a concrete input: after `twinOps` the first account has the
legs deposit 500 and outgoing transfer 200 and the balance 300, the second the
legs deposit 500 and incoming transfer 200 and the balance 700. -/
theorem ledger_invariant_witness :
    BankingService.empty.legs 0 0 twinOps = [(Leg.deposit, 500), (Leg.transferOut, 200)] ∧
    BankingService.empty.legs 0 1 twinOps = [(Leg.deposit, 500), (Leg.transferIn, 200)] ∧
    (300 : ℚ) = ((BankingService.empty.legs 0 0 twinOps).map fun e => e.1.signed e.2).sum ∧
    (700 : ℚ) = ((BankingService.empty.legs 0 1 twinOps).map fun e => e.1.signed e.2).sum :=
  ⟨by decide!, by decide!,
   ((ledger_invariant twinOps).2 0 0
      ⟨2001, 300, [⟨1, "Deposit", 500, 10⟩, ⟨2, "Transfer", 200, 11⟩]⟩ (by decide!)).2,
   ((ledger_invariant twinOps).2 0 1
      ⟨2003, 700, [⟨1, "Deposit", 500, 10⟩, ⟨2, "Transfer", 200, 11⟩]⟩ (by decide!)).2⟩

/-- Claim C5 (persistence round trip) fails on the code.  The store left by
`main` is saved as four lines without separator, and loading that text gives
one customer, 1001, with the empty name and no account: customer 1002, both
accounts, both names and the balance 400 are lost. -/
theorem save_then_load_loses_accounts :
    (main BankingService.empty (fun k => 10 + k)).saveCustomersToFile
        = "1001,Alice\n2001,400.000000\n1002,Bob\n2002,0.000000\n" ∧
    loadCustomersFromFile
        (some (main BankingService.empty (fun k => 10 + k)).saveCustomersToFile)
      = some ⟨[⟨"", 1001, []⟩]⟩ := by
  decide!

/-- Claim C6 (load correctness) fails on the code.  Loading the documented
file gives the two customers without their accounts and with empty names, not
the store the file describes; and for every backing file, every customer of
the loaded store owns no account and has the empty name. -/
theorem load_drops_accounts :
    loadCustomersFromFile (some documentedFile)
        = some ⟨[⟨"", 1001, []⟩, ⟨"", 1002, []⟩]⟩ ∧
    loadCustomersFromFile (some documentedFile) ≠ some documentedStore ∧
    ∀ (file : Option String) (bank : BankingService),
      loadCustomersFromFile file = some bank →
      ∀ c ∈ bank.customers, c.accounts = [] ∧ c.name = "" := by
  refine ⟨by decide!, by decide!, ?_⟩
  intro file bank h c hc
  cases file with
  | none =>
    simp only [loadCustomersFromFile, Option.some.injEq] at h
    subst h
    simp at hc
  | some text =>
    simp only [loadCustomersFromFile, Option.map_eq_some'] at h
    obtain ⟨result, hr, rfl⟩ := h
    exact loadLoop_no_accounts _ none [] result (by simp) hr c hc

/-- Claim C7 (cross-customer transfer scenario) fails on the code.  After the
calls of `main` on the empty store, account 2001 holds 400 and account 2002
holds 0, with no `Transfer` record: `performTransfer(1001, 2001, 2002, 200)`
looks account 2002 up among the accounts of customer 1001 and does not find
it. -/
theorem main_transfer_not_made (time : Nat → Int) :
    main BankingService.empty time =
      ⟨[⟨"Alice", 1001,
          [⟨2001, 400, [⟨1, "Deposit", 500, time 0⟩, ⟨2, "Withdrawal", 100, time 1⟩]⟩]⟩,
        ⟨"Bob", 1002, [⟨2002, 0, []⟩]⟩]⟩ := by
  simp [main, BankingService.empty, BankingService.performDeposit,
    BankingService.performWithdrawal, BankingService.performTransfer,
    BankingService.addCustomer, BankingService.addAccount, BankingService.getCustomer,
    firstIndex, modifyAt, Customer.addAccount, Customer.getAccount, Customer.performDeposit,
    Customer.performWithdrawal, Customer.performTransfer, Account.deposit, Account.withdraw,
    Account.record]
  norm_num

/-- Claim C8 (withdraw postcondition).  When `amount ≤ A.balance`, `withdraw`
keeps the account number, sets the balance to `A.balance - amount` and appends
exactly one `Withdrawal` record of that amount, with the next sequence number,
at the end of the history. -/
theorem withdraw_postcondition (A : Account) (amount : ℚ) (now : Int)
    (h : amount ≤ A.balance) :
    A.withdraw amount now =
      { accountNumber := A.accountNumber, balance := A.balance - amount,
        transactions := A.transactions ++
          [⟨(A.transactions.length : Int) + 1, "Withdrawal", amount, now⟩] } := by
  simp [Account.withdraw, h, Account.record]

/-- Claim C8 at a concrete input: 100 withdrawn from an account holding 500. -/
theorem withdraw_postcondition_witness :
    Account.withdraw ⟨2001, 500, [⟨1, "Deposit", 500, 10⟩]⟩ 100 11 =
      ⟨2001, 400, [⟨1, "Deposit", 500, 10⟩, ⟨2, "Withdrawal", 100, 11⟩]⟩ := by
  have h := withdraw_postcondition ⟨2001, 500, [⟨1, "Deposit", 500, 10⟩]⟩ 100 11 (by norm_num)
  norm_num at h
  exact h

/-- Claim C9 (failed resolution performs no mutation).  When no customer has
the ID, or the first customer with the ID owns no account numbered
`accountNumber`, then `performDeposit` and `performWithdrawal` on that number,
and `performTransfer` with that number as source or as target (whatever the
other number), return the store unchanged. -/
theorem failed_resolution_no_mutation (bank : BankingService)
    (customerID accountNumber other : Int) (amount : ℚ) (now t1 t2 : Int)
    (h : bank.Unresolved customerID accountNumber) :
    bank.performDeposit customerID accountNumber amount now = bank ∧
    bank.performWithdrawal customerID accountNumber amount now = bank ∧
    bank.performTransfer customerID accountNumber other amount t1 t2 = bank ∧
    bank.performTransfer customerID other accountNumber amount t1 t2 = bank := by
  rcases h with h | ⟨before, c, after, hcs, hb, hc, ha⟩
  · have hnone : bank.getCustomer customerID = none := by
      unfold BankingService.getCustomer
      rw [firstIndex_eq_none]
      intro x hx
      simpa using h x hx
    simp [BankingService.performDeposit, BankingService.performWithdrawal,
      BankingService.performTransfer, hnone]
  · have hsome : bank.getCustomer customerID = some before.length := by
      unfold BankingService.getCustomer
      rw [hcs]
      exact firstIndex_append _ _ _ _ (fun x hx => by simpa using hb x hx) (by simpa using hc)
    have hacc : c.getAccount accountNumber = none := by
      unfold Customer.getAccount
      rw [firstIndex_eq_none]
      intro x hx
      simpa using ha x hx
    have hget : ∀ x, bank.customers[before.length]? = some x → x = c := by
      intro x hx
      rw [hcs, List.getElem?_append_right (le_refl _)] at hx
      simpa using hx.symm
    have keep : ∀ f : Customer → Customer, f c = c →
        (⟨modifyAt f before.length bank.customers⟩ : BankingService) = bank := by
      intro f hf
      rw [modifyAt_eq_self f _ _ (fun x hx => by rw [hget x hx]; exact hf)]
    refine ⟨?_, ?_, ?_, ?_⟩
    · simp only [BankingService.performDeposit, hsome]
      exact keep _ (by simp [Customer.performDeposit, hacc])
    · simp only [BankingService.performWithdrawal, hsome]
      exact keep _ (by simp [Customer.performWithdrawal, hacc])
    · simp only [BankingService.performTransfer, hsome]
      exact keep _ (by simp [Customer.performTransfer, hacc])
    · simp only [BankingService.performTransfer, hsome]
      refine keep _ ?_
      unfold Customer.performTransfer
      split
      · rename_i h1 h2
        rw [hacc] at h2
        cases h2
      · rfl

/-- Claim C9 at a concrete input: account 2002 is not an account of customer
1001 in `sampleStore`. -/
theorem failed_resolution_no_mutation_witness :
    sampleStore.performDeposit 1001 2002 50 12 = sampleStore ∧
    sampleStore.performWithdrawal 1001 2002 50 12 = sampleStore ∧
    sampleStore.performTransfer 1001 2002 2001 50 12 13 = sampleStore ∧
    sampleStore.performTransfer 1001 2001 2002 50 12 13 = sampleStore :=
  failed_resolution_no_mutation sampleStore 1001 2002 2001 50 12 12 13
    (Or.inr ⟨[], _, _, rfl, by simp, rfl, by decide⟩)

/-- Claim C10 (non-negative balances).  In every store reached from the empty
store by calls whose amounts are all `≥ 0`, every balance is `≥ 0`.  Moreover,
for any amount, `withdraw` keeps a non-negative balance non-negative, and a
transfer keeps a non-negative balance of its source non-negative. -/
theorem balances_nonnegative (ops : List Op)
    (hops : ∀ op ∈ ops, ∀ m, op.amount? = some m → 0 ≤ m) :
    (∀ c ∈ (BankingService.empty.run ops).customers, ∀ a ∈ c.accounts, 0 ≤ a.balance) ∧
    (∀ (A : Account) (m : ℚ) (now : Int),
      0 ≤ A.balance → 0 ≤ (A.withdraw m now).balance) ∧
    ∀ (accounts : List Account) (i j : Nat) (m : ℚ) (t1 t2 : Int) (A A' : Account),
      accounts[i]? = some A → 0 ≤ A.balance →
      (Account.transfer accounts i j m t1 t2)[i]? = some A' → 0 ≤ A'.balance := by
  refine ⟨?_, ?_, ?_⟩
  · exact run_allAccounts (fun a => 0 ≤ a.balance) (fun m => 0 ≤ m)
      (fun n => le_refl _)
      (fun a m t hm h => by simp only [Account.deposit, record_balance]; exact add_nonneg h hm)
      (fun a m t _ h => by
        unfold Account.withdraw
        split
        · simp only [record_balance]; linarith
        · exact h)
      (fun a m t _ hle _ => by simp only [record_balance]; linarith)
      (fun a m t hm h => by simp only [record_balance]; linarith)
      (fun a m t1 t2 _ _ h => by simp only [record_balance]; linarith)
      ops hops BankingService.empty
      (fun c hc => by simp [BankingService.empty] at hc)
  · intro A m now hA
    unfold Account.withdraw
    split
    · simp only [record_balance]; linarith
    · exact hA
  · intro accounts i j m t1 t2 A A' hA h0 hA'
    by_cases hm : m ≤ A.balance
    · rw [transfer_getElem? accounts i j i A m t1 t2 hA hm] at hA'
      simp only [if_true] at hA'
      split_ifs at hA' <;> cases hA' <;> simp only [record_balance] <;> linarith
    · rw [transfer_rejected accounts i j A m t1 t2 hA (not_le.1 hm), hA] at hA'
      cases hA'
      exact h0

/-- Claim C10 at a concrete input: the calls `twinOps`, whose amounts are 500,
500 and 200. -/
theorem balances_nonnegative_witness :
    (∀ c ∈ (BankingService.empty.run twinOps).customers, ∀ a ∈ c.accounts, 0 ≤ a.balance) ∧
    (∀ (A : Account) (m : ℚ) (now : Int),
      0 ≤ A.balance → 0 ≤ (A.withdraw m now).balance) ∧
    ∀ (accounts : List Account) (i j : Nat) (m : ℚ) (t1 t2 : Int) (A A' : Account),
      accounts[i]? = some A → 0 ≤ A.balance →
      (Account.transfer accounts i j m t1 t2)[i]? = some A' → 0 ≤ A'.balance :=
  balances_nonnegative twinOps (by simp [twinOps, Op.amount?])

/-- Claim C11 as stated fails.  With the amount -50 on an account holding 400,
`deposit` lowers the balance to 350, `withdraw` raises it to 450, and a
transfer raises the source to 450 and lowers the target to -50; each appends
its record.  None of them rejects the request. -/
theorem negative_amounts_are_applied :
    Account.deposit ⟨2001, 400, []⟩ (-50) 12 = ⟨2001, 350, [⟨1, "Deposit", -50, 12⟩]⟩ ∧
    Account.withdraw ⟨2001, 400, []⟩ (-50) 12 = ⟨2001, 450, [⟨1, "Withdrawal", -50, 12⟩]⟩ ∧
    Account.transfer [⟨2001, 400, []⟩, ⟨2003, 0, []⟩] 0 1 (-50) 12 13 =
      [⟨2001, 450, [⟨1, "Transfer", -50, 12⟩]⟩, ⟨2003, -50, [⟨1, "Transfer", -50, 13⟩]⟩] := by
  decide!

/-- Claim C11, amended.  No method checks the sign of the amount.  For every
amount `< 0`: `deposit` adds the amount to the balance and appends a `Deposit`
record; `withdraw` and `transfer` are carried out like for any other amount
whenever `amount ≤ balance`, which holds whenever the balance of the source is
`≥ 0`; they leave everything unchanged only when `amount > balance`. -/
theorem negative_amounts_not_validated (A : Account) (amount : ℚ) (h : amount < 0) :
    (∀ now : Int, A.deposit amount now =
      { accountNumber := A.accountNumber, balance := A.balance + amount,
        transactions := A.transactions ++
          [⟨(A.transactions.length : Int) + 1, "Deposit", amount, now⟩] }) ∧
    (∀ now : Int, amount ≤ A.balance → A.withdraw amount now =
      { accountNumber := A.accountNumber, balance := A.balance - amount,
        transactions := A.transactions ++
          [⟨(A.transactions.length : Int) + 1, "Withdrawal", amount, now⟩] }) ∧
    (∀ (accounts : List Account) (i j : Nat) (B : Account) (t1 t2 : Int), i ≠ j →
      accounts[i]? = some A → accounts[j]? = some B → amount ≤ A.balance →
      (Account.transfer accounts i j amount t1 t2)[i]? =
        some { accountNumber := A.accountNumber, balance := A.balance - amount,
               transactions := A.transactions ++
                 [⟨(A.transactions.length : Int) + 1, "Transfer", amount, t1⟩] } ∧
      (Account.transfer accounts i j amount t1 t2)[j]? =
        some { accountNumber := B.accountNumber, balance := B.balance + amount,
               transactions := B.transactions ++
                 [⟨(B.transactions.length : Int) + 1, "Transfer", amount, t2⟩] }) ∧
    (0 ≤ A.balance → amount ≤ A.balance) ∧
    (A.balance < amount →
      (∀ now : Int, A.withdraw amount now = A) ∧
      ∀ (accounts : List Account) (i j : Nat) (t1 t2 : Int), accounts[i]? = some A →
        Account.transfer accounts i j amount t1 t2 = accounts) := by
  refine ⟨fun now => rfl, fun now hle => ?_, ?_, fun h0 => by linarith, fun hlt => ⟨fun now => ?_, ?_⟩⟩
  · simp [Account.withdraw, hle, Account.record]
  · intro accounts i j B t1 t2 hij hA hB hle
    obtain ⟨h1, h2, _⟩ := transfer_distinct accounts i j A B amount t1 t2 hij hA hB hle
    exact ⟨h1, h2⟩
  · simp [Account.withdraw, not_le.2 hlt]
  · intro accounts i j t1 t2 hA
    exact transfer_rejected accounts i j A amount t1 t2 hA hlt

/-- Claim C11, amended, at a concrete input: the deposit of -50 into an account
holding 400. -/
theorem negative_amounts_not_validated_witness :
    Account.deposit ⟨2001, 400, []⟩ (-50) 12 = ⟨2001, 350, [⟨1, "Deposit", -50, 12⟩]⟩ := by
  have h := (negative_amounts_not_validated ⟨2001, 400, []⟩ (-50) (by norm_num)).1 12
  norm_num at h
  exact h

/-- Claim C12 as stated fails.  Adding a customer with the ID 1001 to a store
that holds customer 1001 changes the store, and the store reached from the
empty store by two `addCustomer` calls with the ID 1001 holds that ID twice. -/
theorem addCustomer_accepts_duplicate :
    sampleStore.addCustomer "Eve" 1001 ≠ sampleStore ∧
    ¬ ((BankingService.empty.run
          [.addCustomer "Alice" 1001, .addCustomer "Eve" 1001]).customers.map
        (fun c => c.customerID)).Nodup := by
  decide!

/-- Claim C12, amended.  When the store already holds a customer with the ID,
`addCustomer` still appends a new customer with that ID, the given name and no
accounts after the existing customers, which stay as they are, and
`getCustomer` for the ID returns the same earlier customer as before.  The IDs
held by a store reached from the empty store are the IDs passed to
`addCustomer`, in call order, repetitions included. -/
theorem addCustomer_appends_duplicate (bank : BankingService) (name : String)
    (customerID : Int) (h : ∃ x ∈ bank.customers, x.customerID = customerID) :
    (bank.addCustomer name customerID).customers
        = bank.customers ++ [⟨name, customerID, []⟩] ∧
    (bank.addCustomer name customerID).getCustomer customerID
        = bank.getCustomer customerID ∧
    ∀ ops : List Op,
      (BankingService.empty.run ops).customers.map (fun c => c.customerID)
        = ops.filterMap Op.newCustomerID? := by
  refine ⟨rfl, ?_, fun ops => ?_⟩
  · obtain ⟨x, hx, hid⟩ := h
    obtain ⟨i, hi⟩ := firstIndex_isSome_of_mem
      (fun cust => decide (cust.customerID = customerID)) bank.customers x hx (by simpa using hid)
    unfold BankingService.getCustomer at *
    rw [hi]
    exact firstIndex_append_left _ _ _ _ hi
  · simpa [BankingService.empty] using run_customerIDs ops BankingService.empty

/-- Claim C12, amended, at a concrete input: a second customer 1001 added to
`sampleStore`. -/
theorem addCustomer_appends_duplicate_witness :
    (sampleStore.addCustomer "Eve" 1001).customers
        = sampleStore.customers ++ [⟨"Eve", 1001, []⟩] ∧
    (sampleStore.addCustomer "Eve" 1001).getCustomer 1001 = sampleStore.getCustomer 1001 :=
  ⟨(addCustomer_appends_duplicate sampleStore "Eve" 1001 (by decide!)).1,
   (addCustomer_appends_duplicate sampleStore "Eve" 1001 (by decide!)).2.1⟩

/-- Claim C13 as stated fails.  A customer owning account 2001 owns two accounts
numbered 2001 after `addAccount(2001)`. -/
theorem addAccount_accepts_duplicate :
    (Customer.addAccount ⟨"Alice", 1001, [⟨2001, 400, []⟩]⟩ 2001).accounts
        = [⟨2001, 400, []⟩, ⟨2001, 0, []⟩] ∧
    ¬ ((Customer.addAccount ⟨"Alice", 1001, [⟨2001, 400, []⟩]⟩ 2001).accounts.map
        (fun a => a.accountNumber)).Nodup := by
  decide!

/-- Claim C13, amended.  When the customer already owns an account with the
number, `addAccount` still appends a new account with that number, balance 0
and empty history after the existing accounts, which stay as they are, and
`getAccount` for the number returns the same earlier account as before.  After
any sequence of `addAccount` calls the account numbers are the old ones
followed by the numbers passed, in call order, repetitions included. -/
theorem addAccount_appends_duplicate (c : Customer) (accountNumber : Int)
    (h : ∃ a ∈ c.accounts, a.accountNumber = accountNumber) :
    (c.addAccount accountNumber).accounts = c.accounts ++ [⟨accountNumber, 0, []⟩] ∧
    (c.addAccount accountNumber).getAccount accountNumber = c.getAccount accountNumber ∧
    ∀ numbers : List Int,
      (numbers.foldl Customer.addAccount c).accounts.map (fun a => a.accountNumber)
        = c.accounts.map (fun a => a.accountNumber) ++ numbers := by
  refine ⟨rfl, ?_, fun ns => foldl_addAccount_numbers ns c⟩
  obtain ⟨x, hx, hn⟩ := h
  obtain ⟨i, hi⟩ := firstIndex_isSome_of_mem
    (fun acc => decide (acc.accountNumber = accountNumber)) c.accounts x hx (by simpa using hn)
  unfold Customer.getAccount
  rw [hi]
  exact firstIndex_append_left _ _ _ _ hi

/-- Claim C13, amended, at a concrete input: a second account 2001 added to a
customer owning account 2001. -/
theorem addAccount_appends_duplicate_witness :
    (Customer.addAccount ⟨"Alice", 1001, [⟨2001, 400, []⟩]⟩ 2001).accounts
        = [⟨2001, 400, []⟩] ++ [⟨2001, 0, []⟩] ∧
    (Customer.addAccount ⟨"Alice", 1001, [⟨2001, 400, []⟩]⟩ 2001).getAccount 2001
        = Customer.getAccount ⟨"Alice", 1001, [⟨2001, 400, []⟩]⟩ 2001 :=
  ⟨(addAccount_appends_duplicate ⟨"Alice", 1001, [⟨2001, 400, []⟩]⟩ 2001 (by decide!)).1,
   (addAccount_appends_duplicate ⟨"Alice", 1001, [⟨2001, 400, []⟩]⟩ 2001 (by decide!)).2.1⟩

/-- Claim C14 (deposit postcondition).  For every account and every amount
`≥ 0`, `deposit` returns (it has no rejecting branch) the account with the same
number, the balance `A.balance + amount`, which is not below the old balance,
and the history extended at its end by exactly one `Deposit` record of that
amount with the next sequence number. -/
theorem deposit_postcondition (A : Account) (amount : ℚ) (now : Int) (h : 0 ≤ amount) :
    A.deposit amount now =
      { accountNumber := A.accountNumber, balance := A.balance + amount,
        transactions := A.transactions ++
          [⟨(A.transactions.length : Int) + 1, "Deposit", amount, now⟩] } ∧
    A.balance ≤ (A.deposit amount now).balance := by
  refine ⟨rfl, ?_⟩
  simp only [Account.deposit, record_balance]
  linarith

/-- Claim C14 at a concrete input: 500 deposited into a new account. -/
theorem deposit_postcondition_witness :
    Account.deposit ⟨2001, 0, []⟩ 500 10 = ⟨2001, 500, [⟨1, "Deposit", 500, 10⟩]⟩ := by
  have h := (deposit_postcondition ⟨2001, 0, []⟩ 500 10 (by norm_num)).1
  norm_num at h
  exact h

/-- Claim C15 (lookup correctness).  `getCustomer` returns the null pointer
exactly when no stored customer has the ID, and it returns position `i` exactly
when the customer at `i` has the ID and no customer before `i` has it;
`getAccount` does the same over the accounts of a customer and their
numbers. -/
theorem lookup_correctness (bank : BankingService) (customerID : Int) (c : Customer)
    (accountNumber : Int) :
    (bank.getCustomer customerID = none ↔ ∀ x ∈ bank.customers, x.customerID ≠ customerID) ∧
    (∀ i : Nat, bank.getCustomer customerID = some i ↔
      (∃ x, bank.customers[i]? = some x ∧ x.customerID = customerID) ∧
      ∀ k y, k < i → bank.customers[k]? = some y → y.customerID ≠ customerID) ∧
    (c.getAccount accountNumber = none ↔ ∀ a ∈ c.accounts, a.accountNumber ≠ accountNumber) ∧
    (∀ i : Nat, c.getAccount accountNumber = some i ↔
      (∃ a, c.accounts[i]? = some a ∧ a.accountNumber = accountNumber) ∧
      ∀ k b, k < i → c.accounts[k]? = some b → b.accountNumber ≠ accountNumber) := by
  refine ⟨?_, fun i => ?_, ?_, fun i => ?_⟩
  · simp [BankingService.getCustomer, firstIndex_eq_none]
  · simp [BankingService.getCustomer, firstIndex_eq_some]
  · simp [Customer.getAccount, firstIndex_eq_none]
  · simp [Customer.getAccount, firstIndex_eq_some]

/-- Claim C16 (sequence numbers).  In every store reached from the empty store,
where every account starts with an empty history, the record at position `k`
(from 0) of every history has sequence number `k + 1`; hence the sequence
numbers of a history are positive and pairwise distinct.  The numbering is
kept by `deposit`, by `withdraw` and, for every account of the vector, by a
transfer between any two positions, equal ones included. -/
theorem sequence_numbers (ops : List Op) (c : Customer)
    (hc : c ∈ (BankingService.empty.run ops).customers) (a : Account) (ha : a ∈ c.accounts) :
    (∀ (k : Nat) (t : Transaction), a.transactions[k]? = some t →
      t.transactionID = (k : Int) + 1) ∧
    (∀ t ∈ a.transactions, 0 < t.transactionID) ∧
    (a.transactions.map (fun t => t.transactionID)).Nodup ∧
    (∀ (A : Account) (m : ℚ) (now : Int), Numbered A.transactions →
      Numbered (A.deposit m now).transactions ∧ Numbered (A.withdraw m now).transactions) ∧
    ∀ (accounts : List Account) (i j : Nat) (m : ℚ) (t1 t2 : Int),
      (∀ x ∈ accounts, Numbered x.transactions) →
      ∀ x ∈ Account.transfer accounts i j m t1 t2, Numbered x.transactions := by
  have hwd : ∀ (A : Account) (m : ℚ) (now : Int), Numbered A.transactions →
      Numbered (A.withdraw m now).transactions := by
    intro A m now h
    unfold Account.withdraw
    split
    · exact numbered_record _ _ _ _ h
    · exact h
  have h : Numbered a.transactions :=
    run_allAccounts (fun a => Numbered a.transactions) (fun _ => True)
      (fun n k t hk => by simp at hk)
      (fun a m t _ h => numbered_record _ _ _ _ h)
      (fun a m t _ h => hwd a m t h)
      (fun a m t _ _ h => numbered_record _ _ _ _ h)
      (fun a m t _ h => numbered_record _ _ _ _ h)
      (fun a m t1 t2 _ _ h => numbered_record _ _ _ _ (numbered_record _ _ _ _ h))
      ops (fun _ _ _ _ => trivial) BankingService.empty
      (fun c hc => by simp [BankingService.empty] at hc) c hc a ha
  exact ⟨h, (numbered_nodup _ h).1, (numbered_nodup _ h).2,
    fun A m now hA => ⟨numbered_record _ _ _ _ hA, hwd A m now hA⟩,
    fun accounts i j m t1 t2 hall => numbered_transfer accounts i j m t1 t2 hall⟩

/-- Claim C16 at a concrete input: the history left by `selfTransferOps`, which
ends with a transfer from account 2001 to itself. -/
theorem sequence_numbers_witness :
    (⟨4, "Transfer", 150, 13⟩ : Transaction).transactionID = ((3 : Nat) : Int) + 1 ∧
    (([⟨1, "Deposit", 500, 10⟩, ⟨2, "Withdrawal", 100, 11⟩,
       ⟨3, "Transfer", 150, 12⟩, ⟨4, "Transfer", 150, 13⟩] : List Transaction).map
      (fun t => t.transactionID)).Nodup :=
  ⟨(sequence_numbers selfTransferOps
      ⟨"Alice", 1001,
        [⟨2001, 400, [⟨1, "Deposit", 500, 10⟩, ⟨2, "Withdrawal", 100, 11⟩,
                      ⟨3, "Transfer", 150, 12⟩, ⟨4, "Transfer", 150, 13⟩]⟩]⟩
      (by decide!)
      ⟨2001, 400, [⟨1, "Deposit", 500, 10⟩, ⟨2, "Withdrawal", 100, 11⟩,
                   ⟨3, "Transfer", 150, 12⟩, ⟨4, "Transfer", 150, 13⟩]⟩
      (by decide!)).1 3 ⟨4, "Transfer", 150, 13⟩ rfl,
   (sequence_numbers selfTransferOps
      ⟨"Alice", 1001,
        [⟨2001, 400, [⟨1, "Deposit", 500, 10⟩, ⟨2, "Withdrawal", 100, 11⟩,
                      ⟨3, "Transfer", 150, 12⟩, ⟨4, "Transfer", 150, 13⟩]⟩]⟩
      (by decide!)
      ⟨2001, 400, [⟨1, "Deposit", 500, 10⟩, ⟨2, "Withdrawal", 100, 11⟩,
                   ⟨3, "Transfer", 150, 12⟩, ⟨4, "Transfer", 150, 13⟩]⟩
      (by decide!)).2.2.1⟩

/-- Claim C18 (frame of the store operations).  `performDeposit`,
`performWithdrawal` and `performTransfer` keep the names, the IDs and the
account numbers of all customers, in order; `performDeposit` and
`performWithdrawal` keep every account except the one at the position resolved
for the customer ID and the account number, and `performTransfer` keeps every
account except those at the two positions resolved for its two account
numbers. -/
theorem frame_of_store_operations (bank : BankingService)
    (customerID a b : Int) (x : ℚ) (now t1 t2 : Int) :
    ((bank.performDeposit customerID a x now).skeleton = bank.skeleton ∧
      ∀ ci ai, ¬ bank.Resolves customerID a ci ai →
        (bank.performDeposit customerID a x now).accountAt ci ai = bank.accountAt ci ai) ∧
    ((bank.performWithdrawal customerID a x now).skeleton = bank.skeleton ∧
      ∀ ci ai, ¬ bank.Resolves customerID a ci ai →
        (bank.performWithdrawal customerID a x now).accountAt ci ai = bank.accountAt ci ai) ∧
    ((bank.performTransfer customerID a b x t1 t2).skeleton = bank.skeleton ∧
      ∀ ci ai, ¬ bank.Resolves customerID a ci ai → ¬ bank.Resolves customerID b ci ai →
        (bank.performTransfer customerID a b x t1 t2).accountAt ci ai
          = bank.accountAt ci ai) := by
  cases hc : bank.getCustomer customerID with
  | none =>
    simp [BankingService.performDeposit, BankingService.performWithdrawal,
      BankingService.performTransfer, hc]
  | some r =>
    have hres : ∀ n ci ai, ¬ bank.Resolves customerID n ci ai → ci = r →
        ∀ c, bank.customers[ci]? = some c → c.getAccount n ≠ some ai := by
      intro n ci ai hn hci c hcc hget
      exact hn ⟨by rw [hc, hci], c, hcc, hget⟩
    refine ⟨⟨?_, ?_⟩, ⟨?_, ?_⟩, ⟨?_, ?_⟩⟩
    · simp only [BankingService.performDeposit, hc, BankingService.skeleton]
      exact map_modifyAt Customer.skeleton _ (fun c => c.performDeposit_skeleton _ _ _) _ _
    · intro ci ai hn
      simp only [BankingService.performDeposit, hc]
      rw [accountAt_modifyAt]
      split
      · rename_i hci
        simp only [BankingService.accountAt]
        cases hcc : bank.customers[ci]? with
        | none => rfl
        | some c =>
          simp only [Option.some_bind, Customer.performDeposit_getElem?,
            hres a ci ai hn hci c hcc, if_false]
      · rfl
    · simp only [BankingService.performWithdrawal, hc, BankingService.skeleton]
      exact map_modifyAt Customer.skeleton _ (fun c => c.performWithdrawal_skeleton _ _ _) _ _
    · intro ci ai hn
      simp only [BankingService.performWithdrawal, hc]
      rw [accountAt_modifyAt]
      split
      · rename_i hci
        simp only [BankingService.accountAt]
        cases hcc : bank.customers[ci]? with
        | none => rfl
        | some c =>
          simp only [Option.some_bind, Customer.performWithdrawal_getElem?,
            hres a ci ai hn hci c hcc, if_false]
      · rfl
    · simp only [BankingService.performTransfer, hc, BankingService.skeleton]
      exact map_modifyAt Customer.skeleton _ (fun c => c.performTransfer_skeleton _ _ _ _ _) _ _
    · intro ci ai hna hnb
      simp only [BankingService.performTransfer, hc]
      rw [accountAt_modifyAt]
      split
      · rename_i hci
        simp only [BankingService.accountAt]
        cases hcc : bank.customers[ci]? with
        | none => rfl
        | some c =>
          simp only [Option.some_bind]
          exact c.performTransfer_getElem?_of_ne _ _ _ _ _ _
            (hres a ci ai hna hci c hcc) (hres b ci ai hnb hci c hcc)
      · rfl

/-- Claim C18 at a concrete input: a deposit into account 2001 of customer 1001
keeps account 2002 of customer 1002. -/
theorem frame_of_store_operations_witness :
    (sampleStore.performDeposit 1001 2001 50 12).accountAt 1 0 = sampleStore.accountAt 1 0 :=
  (frame_of_store_operations sampleStore 1001 2001 2003 50 12 12 13).1.2 1 0
    (fun h => absurd h.1 (by decide!))

end Bank
